import Mathlib

/-!
Verification of the statcan repository's core logic (`src/statcan/client.py`)
against its natural-language specification.

The embedding is a shallow one:

* A CSV table is modelled after parsing, column-major, as an ordered
  association list of `(column name, cell list)` pairs — the same shape a
  pandas / polars dataframe exposes.  Cells are modelled by their CSV text;
  pandas' numeric dtype inference is modelled where a claim depends on it
  (integer columns, see `coordAstype`), and is out of scope for float
  columns (the theorems below restrict their hypotheses accordingly).
* `pd.to_datetime` / polars' string→Date cast are modelled by `to_datetime`,
  which covers the numeric ISO-style formats the normalization pipeline
  produces or consumes (`YYYY`, `YYYY-M`, `YYYY-M-D`, `YYYYMMDD`).  Inputs
  outside this family are treated as unparseable.
* Failures are classified with the spec's taxonomy (`DataError`,
  `FormatError`); the Python code raises untyped exceptions
  (IndexError / KeyError / ValueError / StopIteration / AttributeError) at
  exactly the points where the model returns an error.
-/

set_option maxRecDepth 8000

namespace Statcan

/-! ## Decimal digits and numbers -/

/-- Value of a decimal digit character. -/
def digitVal (c : Char) : Nat := c.toNat - 48

/-- The decimal digit character for `d < 10`. -/
def digitChar (d : Nat) : Char := Char.ofNat (48 + d)

/-- MSD-first decimal rendering of a natural number, fuel-based so that it
reduces in the kernel.  `natCharsAux fuel 0 = []`. -/
def natCharsAux : Nat → Nat → List Char
  | 0, _ => []
  | fuel + 1, n =>
    if n = 0 then []
    else natCharsAux fuel (n / 10) ++ [digitChar (n % 10)]

/-- Decimal digits of `n`, MSD first (empty for `0`). -/
def natChars (n : Nat) : List Char := natCharsAux n n

/-- Parse an all-digit, non-empty character list as a natural number. -/
def parseNatD (cs : List Char) : Option Nat :=
  if cs.isEmpty then none
  else if cs.all (·.isDigit) then some (cs.foldl (fun a c => 10 * a + digitVal c) 0)
  else none

/-- Left-pad with `'0'` to width `k`. -/
def padZ (k : Nat) (cs : List Char) : List Char :=
  List.replicate (k - cs.length) '0' ++ cs

/-- Zero-padded decimal rendering of a natural number. -/
def natPad (k n : Nat) : List Char := padZ k (natChars n)

/-! ## Calendar dates -/

/-- A calendar date (proleptic Gregorian), as `pd.to_datetime` produces. -/
structure Date where
  year : Nat
  month : Nat
  day : Nat
deriving DecidableEq, Repr

def isLeap (y : Nat) : Bool := y % 4 == 0 && (y % 100 != 0 || y % 400 == 0)

def daysInMonth (y m : Nat) : Nat :=
  if m == 2 then (if isLeap y then 29 else 28)
  else if m == 4 || m == 6 || m == 9 || m == 11 then 30
  else 31

/-- Validity of a date, as checked by `pd.to_datetime`. -/
def Date.ok (d : Date) : Bool :=
  1 ≤ d.month && d.month ≤ 12 && 1 ≤ d.day && d.day ≤ daysInMonth d.year d.month

def mkDate (y m d : Nat) : Option Date :=
  if (Date.ok ⟨y, m, d⟩) then some ⟨y, m, d⟩ else none

/-- Split a character list on a separator (`String.splitOn` on one char). -/
def splitOnChar (sep : Char) : List Char → List (List Char)
  | [] => [[]]
  | c :: cs =>
    if c = sep then [] :: splitOnChar sep cs
    else
      match splitOnChar sep cs with
      | [] => [[c]]
      | r :: rs => (c :: r) :: rs

/-- A 4-digit year field. -/
def year4 (cs : List Char) : Option Nat :=
  if cs.length == 4 then parseNatD cs else none

/-- A 1- or 2-digit month/day field. -/
def field2 (cs : List Char) : Option Nat :=
  if cs.length == 1 || cs.length == 2 then parseNatD cs else none

/-- Model of `pd.to_datetime` on a single value (and of the polars
string→Date cast): the numeric ISO-style formats `YYYY`, `YYYYMMDD`,
`YYYY-M`, `YYYY-M-D` (1- or 2-digit month/day), validated against the
calendar.  Other inputs are treated as unparseable. -/
def to_datetime (s : String) : Option Date :=
  match splitOnChar '-' s.data with
  | [y] =>
    if y.length == 4 then (parseNatD y).bind fun yn => mkDate yn 1 1
    else if y.length == 8 then
      (parseNatD (y.take 4)).bind fun yn =>
      (parseNatD ((y.drop 4).take 2)).bind fun mn =>
      (parseNatD (y.drop 6)).bind fun dn => mkDate yn mn dn
    else none
  | [y, m] => (year4 y).bind fun yn => (field2 m).bind fun mn => mkDate yn mn 1
  | [y, m, d] =>
    (year4 y).bind fun yn => (field2 m).bind fun mn => (field2 d).bind fun dn =>
      mkDate yn mn dn
  | _ => none

/-- ISO rendering of a date, as `DataFrame.to_csv` writes a midnight
`datetime64` value: `YYYY-MM-DD`, zero-padded. -/
def isoRender (d : Date) : String :=
  String.mk (natPad 4 d.year ++ '-' :: (natPad 2 d.month ++ '-' :: natPad 2 d.day))

/-! ## Error taxonomy (spec §7)

The Python code raises untyped exceptions; the spec groups them as
`FormatError` / `DataError`.  `attributeError` models the `AttributeError`
raised when `MetadataDatabase.search` touches the `connection` attribute
that only `load` creates; `operationalError` models the
`sqlite3.OperationalError` raised when the `MATCHES` user function itself
raises (an `re.error` from a malformed pattern). -/

inductive StatError where
  | dataError
  | formatError
  | attributeError
  | operationalError
deriving DecidableEq, Repr

/-! ## Tables

Column-major model of a dataframe: an ordered association list of
`(column name, column)` pairs.  A raw (just-parsed) table has string cells;
a normalized table may hold a date-typed column (`dateCol`), which is how
the "textual, never numeric / calendar date, no longer a raw string" dtype
claims are expressed. -/

inductive NCol where
  | strCol (vals : List String)
  | dateCol (vals : List Date)
deriving DecidableEq, Repr

abbrev RTable := List (String × List String)
abbrev NTable := List (String × NCol)

/-- The strings a column shows when read back (dates render as
`DataFrame.to_csv` writes them). -/
def colToStrings : NCol → List String
  | .strCol vs => vs
  | .dateCol ds => ds.map isoRender

def colLen : NCol → Nat
  | .strCol vs => vs.length
  | .dateCol ds => ds.length

def hasCol (t : NTable) (nm : String) : Bool := t.any (fun c => c.1 == nm)

/-- `df[nm]`: the first column named `nm`. -/
def getCol (t : NTable) (nm : String) : Option NCol :=
  (t.find? (fun c => c.1 == nm)).map (·.2)

def getColStrings (t : NTable) (nm : String) : List String :=
  match getCol t nm with
  | some c => colToStrings c
  | none => []

/-- `df[nm] = v`: replace the column in place when present, else append it
at the end (pandas and polars column-assignment semantics). -/
def setCol (t : NTable) (nm : String) (v : NCol) : NTable :=
  if hasCol t nm then t.map (fun c => if c.1 == nm then (nm, v) else c)
  else t ++ [(nm, v)]

/-- `len(df)`: the length of the first column (tables parsed from CSV are
rectangular). -/
def rowCount (t : NTable) : Nat :=
  match t with
  | [] => 0
  | c :: _ => colLen c.2

/-- `str(df.iloc[0, 0])` / `str(df[0, 0])`: first row of the first column. -/
def firstCellStr (t : NTable) : Option String :=
  match t with
  | [] => none
  | c :: _ => (colToStrings c.2).head?

def toN (t : RTable) : NTable := t.map (fun c => (c.1, NCol.strCol c.2))

/-! ## COORDINATE coercion (`astype(str)` / `cast(pl.String)`)

`read_csv` applies dtype inference before the code coerces `COORDINATE`
back to text.  An all-integer-formatted column becomes `int64`, so
`astype(str)` yields the canonical decimal rendering (`"01"` → `"1"`).
Float-typed inference (columns that are all numeric but not all integers)
is not modelled — the theorems below only speak about columns that contain
a clearly non-numeric value (kept as text by pandas, identity here too) or
all-integer columns. -/

/-- An optional `'-'` sign followed by one or more decimal digits: parsed
as `int64` by `read_csv`. -/
def intLike (s : String) : Bool :=
  match s.data with
  | '-' :: ds => !ds.isEmpty && ds.all (·.isDigit)
  | ds => !ds.isEmpty && ds.all (·.isDigit)

/-- A conservative over-approximation of the values `read_csv` may coerce
away from text: made only of sign/digit/dot/exponent/space characters and
containing at most one dot.  A cell failing this (e.g. a multi-part
dotted identifier) is certainly kept textual. -/
def numericLike (s : String) : Bool :=
  (s.data.all fun c =>
    c.isDigit || c == '+' || c == '-' || c == '.' || c == 'e' || c == 'E' ||
    c == ' ' || c == '\t') &&
  decide (s.data.count '.' ≤ 1)

/-- Tokens `read_csv` coerces to `NaN` (default `na_values`) or to `bool` /
`float` specials; a column free of these and containing a non-`numericLike`
value is read verbatim as text. -/
def specialToken (s : String) : Bool :=
  s.isEmpty || s == "nan" || s == "NaN" || s == "NAN" || s == "NA" ||
  s == "N/A" || s == "n/a" || s == "null" || s == "NULL" || s == "Null" ||
  s == "None" || s == "true" || s == "True" || s == "TRUE" ||
  s == "false" || s == "False" || s == "FALSE" || s == "inf" ||
  s == "Inf" || s == "INF" || s == "Infinity" || s == "-inf" ||
  s == "-Infinity" || s == "+inf" || s == "+Infinity"

/-- Integer value of an `intLike` string. -/
def intValOf (s : String) : Option Int :=
  match s.data with
  | '-' :: ds =>
    match parseNatD ds with
    | some n => some (-(n : Int))
    | none => none
  | ds =>
    match parseNatD ds with
    | some n => some ((n : Int))
    | none => none

/-- Python's `str` of an integer. -/
def intRender (i : Int) : String :=
  if i < 0 then String.mk ('-' :: natChars i.natAbs)
  else if i == 0 then "0"
  else String.mk (natChars i.natAbs)

/-- `str(int(s))` for an integer-formatted cell, the cell itself otherwise. -/
def canonInt (s : String) : String :=
  match intValOf s with
  | some i => intRender i
  | none => s

/-- `df["COORDINATE"].astype(str)` composed with `read_csv`'s dtype
inference, on the modelled fragment. -/
def coordAstype (vs : List String) : List String :=
  if vs.all intLike then vs.map canonInt else vs

/-! ## The REF_DATE transformation -/

/-- `mapM` for the date parser, written recursively so its equations are
convenient for the proofs.  `none` models the `ValueError` raised by
`pd.to_datetime` on the first unparseable value. -/
def seqParse (f : String → Option Date) : List String → Option (List Date)
  | [] => some []
  | v :: vs =>
    match f v, seqParse f vs with
    | some d, some ds => some (d :: ds)
    | _, _ => none

/-- Apply a REF_DATE construction rule to every row of the column,
replacing it by a date-typed column.  `DataError` covers the `KeyError`
(missing column) and the parse failure. -/
def applyRule (t : NTable) (f : String → Option Date) : Except StatError NTable :=
  match getCol t "REF_DATE" with
  | none => .error .dataError
  | some col =>
    match seqParse f (colToStrings col) with
    | none => .error .dataError
    | some ds => .ok (setCol t "REF_DATE" (.dateCol ds))

/-- `Series.str.replace(r".*/", "", regex=True)` on one value: the greedy
`.*` eats through the last slash, so this keeps the part after the last
`'/'` (the whole string when there is no slash). -/
def afterLastSlashL : List Char → List Char
  | [] => []
  | c :: cs =>
    if cs.contains '/' then afterLastSlashL cs
    else if c = '/' then cs
    else c :: cs

def afterLastSlash (s : String) : String := String.mk (afterLastSlashL s.data)

/-! ## `CSVContents.get_df_pandas` (client.py lines 117–146) -/

/-- The common first stage of both backends: add/overwrite the constant
`INDICATOR` column (`df["INDICATOR"] = self.dataset_name`, line 125 /
the `pl.lit(...)` expression, line 91) and recast a present `COORDINATE`
column to text (lines 126–127 / 93–96). -/
def addIndicatorCoordinate (t0 : NTable) (name : String) : NTable :=
  let t1 := setCol t0 "INDICATOR" (.strCol (List.replicate (rowCount t0) name))
  if hasCol t1 "COORDINATE" then
    setCol t1 "COORDINATE" (.strCol (coordAstype (getColStrings t1 "COORDINATE")))
  else t1

/-- The pandas normalization pipeline, after `pd.read_csv`.  Mirrors the
source line by line:

* `df["INDICATOR"] = self.dataset_name` (line 125),
* `df["COORDINATE"] = df["COORDINATE"].astype(str)` when present (126–127),
* `ref_date = str(df.iloc[0, 0])` (129) — the first **column**, which the
  `DataError` on an empty table models (`IndexError` in Python),
* the length-classified REF_DATE branches (130–145); in the length-9 branch
  the source assigns `REF_PERIOD = "Fiscal year"` before the final
  `pd.to_datetime`, which is observationally the same as adding it after a
  successful parse, since a parse failure discards the frame. -/
def normalize_pandas (t : RTable) (name : String) : Except StatError NTable :=
  let t2 := addIndicatorCoordinate (toN t) name
  match firstCellStr t2 with
  | none => .error .dataError
  | some rd =>
    if rd.length == 4 then applyRule t2 (fun s => to_datetime (s ++ "-1-1"))
    else if rd.length == 7 then applyRule t2 (fun s => to_datetime (s ++ "-1"))
    else if rd.length == 9 then
      match applyRule t2 (fun s => to_datetime (afterLastSlash s ++ "-3-31")) with
      | .ok t3 => .ok (setCol t3 "REF_PERIOD" (.strCol (List.replicate (rowCount t3) "Fiscal year")))
      | .error e => .error e
    else applyRule t2 (fun s => to_datetime s)

/-! ## `CSVContents.get_df_polars` (client.py lines 79–115) -/

/-- `pl.col("REF_DATE").str.replace(r".*/(\d{4})", "${1}-3-31")` on one
value: replace the first (leftmost-longest) match, i.e. everything up to
and including the **last** slash that is followed by four digits, by those
four digits and `"-3-31"`, keeping any remaining suffix.  No match leaves
the value unchanged. -/
def polarsFiscalL : List Char → Option (List Char)
  | [] => none
  | c :: cs =>
    match polarsFiscalL cs with
    | some r => some r
    | none =>
      if c = '/' && (cs.take 4).all (·.isDigit) && decide (4 ≤ cs.length) then
        some (cs.take 4 ++ ('-' :: '3' :: '-' :: '3' :: '1' :: cs.drop 4))
      else none

def polarsFiscalRep (s : String) : String :=
  match polarsFiscalL s.data with
  | some r => String.mk r
  | none => s

/-- The polars normalization pipeline, after `pl.read_csv`.  `df[0, 0]` is
read from the original frame; the expression list built for
`with_columns` adds `INDICATOR`, recasts `COORDINATE`, and — only for
first-cell lengths 4, 7 and 9 — rewrites `REF_DATE` (appending
`REF_PERIOD = "Fiscal Year"` in the length-9 case).  For any other length
the frame is returned with `REF_DATE` untouched.  The string→Date casts
are modelled by `to_datetime` (see its docstring for the covered
formats). -/
def normalize_polars (t : RTable) (name : String) : Except StatError NTable :=
  let t0 := toN t
  match firstCellStr t0 with
  | none => .error .dataError
  | some rd =>
    let t2 := addIndicatorCoordinate t0 name
    if rd.length == 4 then applyRule t2 (fun s => to_datetime (s ++ "-1-1"))
    else if rd.length == 7 then applyRule t2 (fun s => to_datetime (s ++ "-1"))
    else if rd.length == 9 then
      match applyRule t2 (fun s => to_datetime (polarsFiscalRep s)) with
      | .ok t3 => .ok (setCol t3 "REF_PERIOD" (.strCol (List.replicate (rowCount t3) "Fiscal Year")))
      | .error e => .error e
    else .ok t2

/-- Re-encoding of a normalized table "identically" as raw CSV input
(`to_csv` then `read_csv`): every column reads back as its shown strings. -/
def reencode (t : NTable) : RTable := t.map (fun c => (c.1, colToStrings c.2))

/-! ## `CSVContents.dataset_name` (client.py lines 66–76)

The metadata blob is modelled as decoded text.  `split(b"\n", maxsplit=2)`
yields at most three segments; the first is discarded, the second is
CSV-decoded and its first field returned.  `FormatError` models the
`StopIteration` (fewer than two segments) and the `IndexError` /
`StopIteration` raised when the second line decodes to no field. -/

def joinNl : List (List Char) → List Char
  | [] => []
  | [x] => x
  | x :: xs => x ++ '\n' :: joinNl xs

/-- Python's `split("\n", maxsplit=2)`. -/
def pySplitN2 (s : String) : List String :=
  match splitOnChar '\n' s.data with
  | [] => []
  | [a] => [String.mk a]
  | [a, b] => [String.mk a, String.mk b]
  | a :: b :: rest => [String.mk a, String.mk b, String.mk (joinNl rest)]

/-- One step of `csv.reader`'s field scanner (default dialect): commas
split fields outside quotes, `'"'` toggles a quoted section in which
`""` is a literal quote. -/
def csvFieldsAux : List Char → Bool → List Char → List (List Char) → List (List Char)
  | [], _, cur, acc => acc ++ [cur]
  | ',' :: rest, false, cur, acc => csvFieldsAux rest false [] (acc ++ [cur])
  | '"' :: rest, false, cur, acc => csvFieldsAux rest true cur acc
  | '"' :: '"' :: rest, true, cur, acc => csvFieldsAux rest true (cur ++ ['"']) acc
  | '"' :: rest, true, cur, acc => csvFieldsAux rest false cur acc
  | c :: rest, q, cur, acc => csvFieldsAux rest q (cur ++ [c]) acc

/-- CSV-decode one line into its fields.  An empty line yields no field,
which is how `next(csv.reader([""]))[0]` fails. -/
def csvFields (s : String) : List String :=
  match s.data with
  | [] => []
  | cs => (csvFieldsAux cs false [] []).map String.mk

def dataset_name (metadata : String) : Except StatError String :=
  match pySplitN2 metadata with
  | _ :: second :: _ =>
    match csvFields second with
    | f :: _ => .ok f
    | [] => .error .formatError
  | _ => .error .formatError

/-! ## `match` and `MetadataDatabase` (client.py lines 223–303)

The sqlite store is modelled as the list of inserted rows tagged with their
`AUTOINCREMENT` primary key; `connection = none` is the state before any
`load` (where `self.connection` does not exist and `search` raises
`AttributeError`).

The `MATCHES` user function delegates to `re.search`.  The pipeline only
ever builds patterns of the shape `"(" + "|".join(keywords) + ")"`;
`reSearch` interprets exactly that fragment — an un-anchored alternation —
for keywords free of regex metacharacters, via substring matching.  A
pattern outside the fragment is reported as the `re.error` /
`OperationalError` failure: this is exact for the unbalanced patterns a
keyword containing `(` or `)` produces (e.g. `search("(")` builds `"(()"`,
which `re.compile` rejects), and conservative for keywords containing
other metacharacters, whose patterns may compile with non-literal
semantics; no theorem below depends on that region. -/

/-- Characters that are regex metacharacters for Python's `re` (plus the
alternation bar, handled separately): keywords made only of other
characters are matched literally. -/
def reMeta (c : Char) : Bool :=
  c == '\\' || c == '.' || c == '^' || c == '$' || c == '*' || c == '+' ||
  c == '?' || c == Char.ofNat 123 || c == Char.ofNat 125 || c == '[' ||
  c == ']' || c == '(' || c == ')' || c == '|'

/-- `needle` occurs as a contiguous substring of `hay`. -/
def hasSub (needle hay : List Char) : Bool :=
  match hay with
  | [] => needle.isEmpty
  | _ :: t => needle.isPrefixOf hay || hasSub needle t

/-- Recognize a pattern of the fragment `(lit1|lit2|...|litN)` and return
the literal alternatives. -/
def parseAltLits (pat : String) : Option (List String) :=
  match pat.data with
  | '(' :: rest =>
    if rest.getLast? == some ')' &&
        rest.dropLast.all (fun c => c == '|' || !reMeta c) then
      some ((splitOnChar '|' rest.dropLast).map String.mk)
    else none
  | _ => none

/-- Model of `re.search(expr, item) is not None` on the emitted fragment:
a fragment pattern matches exactly when some literal alternative occurs as
a substring; a pattern outside the fragment fails with the `re.error`
failure (surfacing as `sqlite3.OperationalError` from the query). -/
def reSearch (expr s : String) : Except StatError Bool :=
  match parseAltLits expr with
  | some ks => .ok (ks.any fun k => hasSub k.data s.data)
  | none => .error .operationalError

/-- The module-level `match(expr, item)` helper (client.py lines 223–226):
`None` returns `False` before the pattern is ever compiled, otherwise
`re.search`. -/
def reMatch (expr : String) (item : Option String) : Except StatError Bool :=
  match item with
  | none => .ok false
  | some s => reSearch expr s

/-- One catalog row as selected/inserted by the sqlite statements. -/
structure DbRow where
  title : Option String
  data_id : Option String
  description : Option String
  release_date : Option String
  lang : Option String
deriving DecidableEq, Repr

structure MetadataDatabase where
  connection : Option (List (Nat × DbRow))
deriving DecidableEq, Repr

/-- `MetadataDatabase(...)`: no `connection` attribute yet. -/
def mkDatabase : MetadataDatabase := ⟨none⟩

/-- `MetadataDatabase.load` after the rows have been fetched and decoded:
connect (`CREATE TABLE IF NOT EXISTS` keeps prior contents), then insert
every row, each receiving the next `AUTOINCREMENT` primary key. -/
def MetadataDatabase.load (db : MetadataDatabase) (rows : List DbRow) : MetadataDatabase :=
  let existing := db.connection.getD []
  ⟨some (existing ++ rows.enum.map (fun p => (existing.length + p.1 + 1, p.2)))⟩

/-- `"(" + "|".join(args) + ")"` — Python's `str.join` is
`String.intercalate`, written recursively here for the proofs. -/
def pyJoin (sep : String) : List String → String
  | [] => ""
  | [x] => x
  | x :: xs => x ++ sep ++ pyJoin sep xs

def keywords_or (args : List String) : String := "(" ++ pyJoin "|" args ++ ")"

/-- `MATCHES(?, title) OR MATCHES(?, description)` for one row: the left
operand is evaluated first and a true result short-circuits the right
one. -/
def rowMatches (expr : String) (r : DbRow) : Except StatError Bool :=
  match reMatch expr r.title with
  | .error e => .error e
  | .ok true => .ok true
  | .ok false => reMatch expr r.description

/-- The `WHERE` scan of the select statement over the stored rows in rowid
(= insertion) order; the first failing `MATCHES` call aborts the whole
query. -/
def scanRows (expr : String) (rows : List (Nat × DbRow)) :
    Except StatError (List DbRow) :=
  match rows with
  | [] => .ok []
  | r :: rs =>
    match rowMatches expr r.2 with
    | .error e => .error e
    | .ok b =>
      match scanRows expr rs with
      | .error e => .error e
      | .ok tail => .ok (if b then r.2 :: tail else tail)

/-- `MetadataDatabase.search`: before any `load` the `connection`
attribute does not exist (`AttributeError`); otherwise select, in rowid
(= insertion) order, the rows whose title or description `MATCHES` the
joined pattern. -/
def MetadataDatabase.search (db : MetadataDatabase) (args : List String) :
    Except StatError (List DbRow) :=
  match db.connection with
  | none => .error .attributeError
  | some entries => scanRows (keywords_or args) entries

/-! ## Basic string and digit lemmas -/

theorem data_append (a b : String) : (a ++ b).data = a.data ++ b.data := by
  cases a; cases b; rfl

theorem mk_data (s : String) : String.mk s.data = s := by
  cases s; rfl

theorem splitOnChar_ne_nil (sep : Char) (cs : List Char) : splitOnChar sep cs ≠ [] := by
  induction cs with
  | nil => simp [splitOnChar]
  | cons c cs ih =>
    simp only [splitOnChar]
    split
    · simp
    · split
      · simp
      · simp

theorem splitOnChar_of_not_mem {sep : Char} {cs : List Char} (h : sep ∉ cs) :
    splitOnChar sep cs = [cs] := by
  induction cs with
  | nil => rfl
  | cons c cs ih =>
    simp only [List.mem_cons, not_or] at h
    simp only [splitOnChar]
    rw [if_neg (fun hc => h.1 hc.symm), ih h.2]

theorem splitOnChar_append {sep : Char} {xs : List Char} (ys : List Char) (h : sep ∉ xs) :
    splitOnChar sep (xs ++ sep :: ys) = xs :: splitOnChar sep ys := by
  induction xs with
  | nil => simp [splitOnChar]
  | cons c cs ih =>
    simp only [List.mem_cons, not_or] at h
    simp only [List.cons_append, splitOnChar, List.append_eq]
    rw [if_neg (fun hc => h.1 hc.symm), ih h.2]

theorem digitVal_digitChar {d : Nat} (h : d < 10) : digitVal (digitChar d) = d := by
  interval_cases d <;> decide

theorem isDigit_digitChar {d : Nat} (h : d < 10) : (digitChar d).isDigit = true := by
  interval_cases d <;> decide

theorem natCharsAux_digits {fuel n : Nat} {c : Char} (h : c ∈ natCharsAux fuel n) :
    c.isDigit = true := by
  induction fuel generalizing n with
  | zero => simp [natCharsAux] at h
  | succ fuel ih =>
    rw [natCharsAux] at h
    split at h
    · simp at h
    · rw [List.mem_append] at h
      rcases h with h | h
      · exact ih h
      · simp only [List.mem_singleton] at h
        subst h
        exact isDigit_digitChar (Nat.mod_lt _ (by norm_num))

theorem isDigit_ne_of_not_digit {c c' : Char} (hc : c.isDigit = true)
    (hc' : c'.isDigit = false) : c ≠ c' := by
  intro h; rw [h, hc'] at hc; exact Bool.false_ne_true hc

theorem natCharsAux_foldl {fuel n : Nat} (h : n ≤ fuel) :
    (natCharsAux fuel n).foldl (fun a c => 10 * a + digitVal c) 0 = n := by
  induction fuel using Nat.strong_induction_on generalizing n with
  | _ fuel ih =>
    match fuel with
    | 0 =>
      have hn : n = 0 := by omega
      subst hn; rfl
    | fuel + 1 =>
      by_cases hn : n = 0
      · subst hn; rfl
      · rw [natCharsAux, if_neg hn, List.foldl_append]
        have hdiv : n / 10 ≤ fuel := by
          have := Nat.div_lt_self (Nat.pos_of_ne_zero hn) (by norm_num : 1 < 10)
          omega
        rw [ih fuel (Nat.lt_succ_self _) hdiv]
        simp only [List.foldl_cons, List.foldl_nil]
        rw [digitVal_digitChar (Nat.mod_lt _ (by norm_num))]
        omega

theorem natCharsAux_length {fuel n k : Nat} (h : n < 10 ^ k) :
    (natCharsAux fuel n).length ≤ k := by
  induction fuel generalizing n k with
  | zero => simp [natCharsAux]
  | succ fuel ih =>
    by_cases hn : n = 0
    · simp [natCharsAux, hn]
    · rw [natCharsAux, if_neg hn, List.length_append, List.length_singleton]
      match k with
      | 0 =>
        exfalso
        rw [pow_zero] at h
        omega
      | k + 1 =>
        have hdiv : n / 10 < 10 ^ k := by
          rw [Nat.div_lt_iff_lt_mul (by norm_num : 0 < 10)]
          calc n < 10 ^ (k + 1) := h
          _ = 10 ^ k * 10 := by ring
        have := ih hdiv
        omega

theorem natChars_digits {n : Nat} {c : Char} (h : c ∈ natChars n) : c.isDigit = true :=
  natCharsAux_digits h

theorem natChars_foldl (n : Nat) :
    (natChars n).foldl (fun a c => 10 * a + digitVal c) 0 = n :=
  natCharsAux_foldl (Nat.le_refl n)

theorem natChars_length {n k : Nat} (h : n < 10 ^ k) : (natChars n).length ≤ k :=
  natCharsAux_length h

theorem natChars_ne_nil {n : Nat} (h : n ≠ 0) : natChars n ≠ [] := by
  match n, h with
  | n + 1, _ =>
    rw [natChars, natCharsAux, if_neg (Nat.succ_ne_zero n)]
    simp

theorem foldl_replicate_zero (j : Nat) (cs : List Char) :
    ((List.replicate j '0' ++ cs).foldl (fun a c => 10 * a + digitVal c) 0) =
      cs.foldl (fun a c => 10 * a + digitVal c) 0 := by
  induction j with
  | zero => rfl
  | succ j ih => simpa [List.replicate_succ] using ih

theorem padZ_length {k : Nat} {cs : List Char} (h : cs.length ≤ k) :
    (padZ k cs).length = k := by
  simp only [padZ, List.length_append, List.length_replicate]
  omega

theorem padZ_all_digits {k : Nat} {cs : List Char} (h : ∀ c ∈ cs, c.isDigit = true) :
    (padZ k cs).all (·.isDigit) = true := by
  simp only [padZ, List.all_append, Bool.and_eq_true, List.all_eq_true]
  constructor
  · intro c hc
    rw [List.eq_of_mem_replicate hc]
    decide
  · exact h

theorem parseNatD_padZ_natChars {k n : Nat} (hk : 0 < k) (h : n < 10 ^ k) :
    parseNatD (padZ k (natChars n)) = some n := by
  have hlen : (padZ k (natChars n)).length = k := padZ_length (natChars_length h)
  have hne : padZ k (natChars n) ≠ [] := by
    intro hnil
    rw [hnil] at hlen
    simp at hlen
    omega
  rw [parseNatD, if_neg (by simp [List.isEmpty_iff, hne]),
    if_pos (padZ_all_digits (fun c hc => natChars_digits hc))]
  rw [padZ, foldl_replicate_zero, natChars_foldl]

theorem parseNatD_natPad {k n : Nat} (hk : 0 < k) (h : n < 10 ^ k) :
    parseNatD (natPad k n) = some n :=
  parseNatD_padZ_natChars hk h

theorem natPad_length {k n : Nat} (h : n < 10 ^ k) : (natPad k n).length = k :=
  padZ_length (natChars_length h)

theorem natPad_not_dash {k n : Nat} {c : Char} (h : c ∈ natPad k n) : c ≠ '-' := by
  rw [natPad, padZ, List.mem_append] at h
  rcases h with h | h
  · rw [List.eq_of_mem_replicate h]; decide
  · exact isDigit_ne_of_not_digit (natChars_digits h) (by decide)

theorem digitVal_le9 {c : Char} (h : c.isDigit = true) : digitVal c ≤ 9 := by
  simp only [Char.isDigit, ge_iff_le, Bool.and_eq_true, decide_eq_true_eq] at h
  have h2 : c.toNat ≤ 57 := h.2
  simp only [digitVal]
  omega

theorem foldl_digits_lt {cs : List Char} (a : Nat) (h : ∀ c ∈ cs, c.isDigit = true) :
    cs.foldl (fun a c => 10 * a + digitVal c) a < (a + 1) * 10 ^ cs.length := by
  induction cs generalizing a with
  | nil =>
    simp only [List.foldl_nil, List.length_nil, pow_zero, Nat.mul_one]
    exact Nat.lt_succ_self a
  | cons c cs ih =>
    simp only [List.foldl_cons, List.length_cons]
    have hc := digitVal_le9 (h c (List.mem_cons_self c cs))
    have := ih (10 * a + digitVal c) (fun c hc => h c (List.mem_cons_of_mem _ hc))
    calc List.foldl (fun a c => 10 * a + digitVal c) (10 * a + digitVal c) cs
        < (10 * a + digitVal c + 1) * 10 ^ cs.length := this
      _ ≤ ((a + 1) * 10) * 10 ^ cs.length := by
          apply Nat.mul_le_mul_right
          omega
      _ = (a + 1) * 10 ^ (cs.length + 1) := by ring

theorem parseNatD_lt {cs : List Char} {n : Nat} (h : parseNatD cs = some n) :
    n < 10 ^ cs.length := by
  rw [parseNatD] at h
  split at h
  · exact absurd h (by simp)
  · split at h
    · rename_i hall
      rw [Option.some_inj] at h
      subst h
      have := @foldl_digits_lt cs 0
        (by simp only [List.all_eq_true] at hall; exact fun c hc => hall c hc)
      simp only [Nat.zero_add, Nat.one_mul] at this
      exact this
    · exact absurd h (by simp)

theorem mkDate_some {y m dd : Nat} {d : Date} (h : mkDate y m dd = some d) :
    d = ⟨y, m, dd⟩ ∧ d.ok = true := by
  rw [mkDate] at h
  split at h
  · rename_i hok
    rw [Option.some_inj] at h
    exact ⟨h.symm, h ▸ hok⟩
  · exact absurd h (by simp)

/-- Every date `to_datetime` produces is calendar-valid and has a year
below 10000 (years are written with exactly four digits). -/
theorem to_datetime_ok {s : String} {d : Date} (h : to_datetime s = some d) :
    d.ok = true ∧ d.year < 10000 := by
  rw [to_datetime] at h
  split at h
  · rename_i y _
    split at h
    · rename_i hlen
      rw [Option.bind_eq_some] at h
      obtain ⟨yn, hyn, hmk⟩ := h
      obtain ⟨hd, hok⟩ := mkDate_some hmk
      refine ⟨hok, ?_⟩
      have := parseNatD_lt hyn
      have hlen4 : y.length = 4 := by simpa using hlen
      rw [hlen4] at this
      rw [hd]
      exact this
    · split at h
      · rw [Option.bind_eq_some] at h
        obtain ⟨yn, hyn, h⟩ := h
        rw [Option.bind_eq_some] at h
        obtain ⟨mn, _, h⟩ := h
        rw [Option.bind_eq_some] at h
        obtain ⟨dn, _, hmk⟩ := h
        obtain ⟨hd, hok⟩ := mkDate_some hmk
        refine ⟨hok, ?_⟩
        have := parseNatD_lt hyn
        have hlen4 : (y.take 4).length ≤ 4 := by
          exact List.length_take_le 4 y
        rw [hd]
        calc yn < 10 ^ (y.take 4).length := this
          _ ≤ 10 ^ 4 := Nat.pow_le_pow_right (by norm_num) hlen4
      · exact absurd h (by simp)
  · rename_i y m _
    rw [year4] at h
    split at h
    · rename_i hlen
      rw [Option.bind_eq_some] at h
      obtain ⟨yn, hyn, h⟩ := h
      rw [Option.bind_eq_some] at h
      obtain ⟨mn, _, hmk⟩ := h
      obtain ⟨hd, hok⟩ := mkDate_some hmk
      refine ⟨hok, ?_⟩
      have := parseNatD_lt hyn
      have hlen4 : y.length = 4 := by simpa using hlen
      rw [hlen4] at this
      rw [hd]
      exact this
    · exact absurd h (by simp)
  · rename_i y m dd _
    rw [year4] at h
    split at h
    · rename_i hlen
      rw [Option.bind_eq_some] at h
      obtain ⟨yn, hyn, h⟩ := h
      rw [Option.bind_eq_some] at h
      obtain ⟨mn, _, h⟩ := h
      rw [Option.bind_eq_some] at h
      obtain ⟨dn, _, hmk⟩ := h
      obtain ⟨hd, hok⟩ := mkDate_some hmk
      refine ⟨hok, ?_⟩
      have := parseNatD_lt hyn
      have hlen4 : y.length = 4 := by simpa using hlen
      rw [hlen4] at this
      rw [hd]
      exact this
    · exact absurd h (by simp)
  · exact absurd h (by simp)

theorem day_le_31 {d : Date} (h : d.ok = true) : d.day ≤ 31 := by
  simp only [Date.ok, Bool.and_eq_true, decide_eq_true_eq] at h
  have := h.2
  have hm : daysInMonth d.year d.month ≤ 31 := by
    rw [daysInMonth]
    split
    · split <;> omega
    · split <;> omega
  omega

theorem month_le_12 {d : Date} (h : d.ok = true) : d.month ≤ 12 := by
  simp only [Date.ok, Bool.and_eq_true, decide_eq_true_eq] at h
  exact h.1.1.2

/-- Rendering a valid four-digit-year date and parsing it back returns the
same date: the core of the idempotence argument. -/
theorem to_datetime_isoRender {d : Date} (hok : d.ok = true) (hy : d.year < 10000) :
    to_datetime (isoRender d) = some d := by
  have hsplit : splitOnChar '-' (isoRender d).data =
      [natPad 4 d.year, natPad 2 d.month, natPad 2 d.day] := by
    show splitOnChar '-'
        (natPad 4 d.year ++ '-' :: (natPad 2 d.month ++ '-' :: natPad 2 d.day)) = _
    rw [splitOnChar_append _ (fun hc => natPad_not_dash hc rfl),
      splitOnChar_append _ (fun hc => natPad_not_dash hc rfl),
      splitOnChar_of_not_mem (fun hc => natPad_not_dash hc rfl)]
  have hylen : (natPad 4 d.year).length = 4 := natPad_length hy
  have hmlen : (natPad 2 d.month).length = 2 := by
    refine natPad_length ?_
    have := month_le_12 hok
    omega
  have hdlen : (natPad 2 d.day).length = 2 := by
    refine natPad_length ?_
    have := day_le_31 hok
    omega
  simp only [to_datetime, hsplit]
  rw [year4, if_pos (by simp [hylen]), parseNatD_natPad (by norm_num) hy,
    Option.some_bind]
  rw [field2, if_pos (by simp [hmlen]),
    parseNatD_natPad (by norm_num) (by have := month_le_12 hok; omega),
    Option.some_bind]
  rw [field2, if_pos (by simp [hdlen]),
    parseNatD_natPad (by norm_num) (by have := day_le_31 hok; omega),
    Option.some_bind]
  rw [mkDate, if_pos hok]

/-! ## `seqParse` lemmas -/

theorem seqParse_length {f : String → Option Date} {vs : List String} {ds : List Date}
    (h : seqParse f vs = some ds) : ds.length = vs.length := by
  induction vs generalizing ds with
  | nil =>
    rw [seqParse, Option.some_inj] at h
    simp [← h]
  | cons v vs ih =>
    rw [seqParse] at h
    split at h
    · rename_i d ds' hd hds
      rw [Option.some_inj] at h
      subst h
      simp [ih hds]
    · exact absurd h (by simp)

theorem seqParse_mem {f : String → Option Date} {vs : List String} {ds : List Date}
    (h : seqParse f vs = some ds) {d : Date} (hd : d ∈ ds) :
    ∃ v ∈ vs, f v = some d := by
  induction vs generalizing ds with
  | nil =>
    rw [seqParse, Option.some_inj] at h
    subst h
    simp at hd
  | cons v vs ih =>
    rw [seqParse] at h
    split at h
    · rename_i d' ds' hd' hds
      rw [Option.some_inj] at h
      subst h
      rcases List.mem_cons.mp hd with h1 | h1
      · exact ⟨v, List.mem_cons_self v vs, h1 ▸ hd'⟩
      · obtain ⟨w, hw, hfw⟩ := ih hds h1
        exact ⟨w, List.mem_cons_of_mem _ hw, hfw⟩
    · exact absurd h (by simp)

theorem seqParse_eq_none {f : String → Option Date} {vs : List String} {v : String}
    (hv : v ∈ vs) (hf : f v = none) : seqParse f vs = none := by
  induction vs with
  | nil => simp at hv
  | cons w ws ih =>
    rw [seqParse]
    rcases List.mem_cons.mp hv with h1 | h1
    · subst h1
      rw [hf]
    · rw [ih h1]
      split
      · rename_i heq1 heq2
        exact absurd heq2 (by simp)
      · rfl

theorem seqParse_congr {f g : String → Option Date} {vs : List String}
    (h : ∀ v ∈ vs, f v = g v) : seqParse f vs = seqParse g vs := by
  induction vs with
  | nil => rfl
  | cons v vs ih =>
    rw [seqParse, seqParse, h v (List.mem_cons_self v vs),
      ih (fun w hw => h w (List.mem_cons_of_mem _ hw))]

/-- Re-parsing the renders of dates produced by any `to_datetime`-based
rule recovers exactly the same dates. -/
theorem seqParse_isoRender {g : String → String} {vs : List String} {ds : List Date}
    (h : seqParse (fun s => to_datetime (g s)) vs = some ds) :
    seqParse to_datetime (ds.map isoRender) = some ds := by
  induction vs generalizing ds with
  | nil =>
    rw [seqParse, Option.some_inj] at h
    subst h
    rfl
  | cons v vs ih =>
    rw [seqParse] at h
    split at h
    · rename_i d ds' hd hds
      rw [Option.some_inj] at h
      subst h
      obtain ⟨hok, hy⟩ := to_datetime_ok hd
      simp only [List.map_cons, seqParse, to_datetime_isoRender hok hy, ih hds]
    · exact absurd h (by simp)

/-! ## Table-operation lemmas -/

theorem colToStrings_length (c : NCol) : (colToStrings c).length = colLen c := by
  cases c <;> simp [colToStrings, colLen]

theorem hasCol_cons (nm0 : String) (c0 : NCol) (t : NTable) (nm : String) :
    hasCol ((nm0, c0) :: t) nm = ((nm0 == nm) || hasCol t nm) := by
  simp [hasCol]

theorem getCol_cons_self (nm : String) (c : NCol) (t : NTable) :
    getCol ((nm, c) :: t) nm = some c := by
  simp [getCol, List.find?_cons]

theorem getCol_cons_ne {nm0 nm : String} (h : (nm0 == nm) = false) (c0 : NCol)
    (t : NTable) : getCol ((nm0, c0) :: t) nm = getCol t nm := by
  simp [getCol, List.find?_cons, h]

theorem setCol_cons_ne {nm0 nm : String} (h : (nm0 == nm) = false) (c0 : NCol)
    (t : NTable) (v : NCol) :
    setCol ((nm0, c0) :: t) nm v = (nm0, c0) :: setCol t nm v := by
  rw [setCol, setCol, hasCol_cons, h, Bool.false_or]
  split
  · rw [List.map_cons]
    congr 1
    simp [h]
  · simp

theorem setCol_cons_self (nm : String) (c0 v : NCol) (t : NTable) :
    setCol ((nm, c0) :: t) nm v =
      (nm, v) :: t.map (fun c => if c.1 == nm then (nm, v) else c) := by
  rw [setCol, if_pos (by simp [hasCol_cons])]
  simp

theorem getCol_setCol_self (t : NTable) (nm : String) (v : NCol) :
    getCol (setCol t nm v) nm = some v := by
  induction t with
  | nil => simp [setCol, hasCol, getCol, List.find?]
  | cons c t ih =>
    obtain ⟨nm0, c0⟩ := c
    by_cases h : nm0 = nm
    · subst h
      rw [setCol_cons_self, getCol_cons_self]
    · rw [setCol_cons_ne (by simpa using h), getCol_cons_ne (by simpa using h), ih]

theorem getCol_replaceAll_ne {nm0 nm' : String} (h : nm' ≠ nm0) (t : NTable)
    (v : NCol) :
    getCol (t.map (fun c => if c.1 == nm0 then (nm0, v) else c)) nm' = getCol t nm' := by
  induction t with
  | nil => rfl
  | cons c t ih =>
    obtain ⟨nm1, c1⟩ := c
    rw [List.map_cons]
    by_cases h1 : nm1 = nm0
    · subst h1
      rw [if_pos (by simp)]
      rw [getCol_cons_ne (by rw [beq_eq_false_iff_ne]; exact fun hc => h hc.symm)]
      rw [getCol_cons_ne (by rw [beq_eq_false_iff_ne]; exact fun hc => h hc.symm)]
      exact ih
    · rw [if_neg (by simp [h1])]
      by_cases h2 : nm1 = nm'
      · subst h2
        rw [getCol_cons_self, getCol_cons_self]
      · rw [getCol_cons_ne (by simpa using h2), getCol_cons_ne (by simpa using h2), ih]

theorem getCol_append_ne {nm nm' : String} (h : (nm == nm') = false) (t : NTable)
    (v : NCol) : getCol (t ++ [(nm, v)]) nm' = getCol t nm' := by
  induction t with
  | nil => simp [getCol, List.find?_cons, h]
  | cons c t ih =>
    obtain ⟨nm1, c1⟩ := c
    rw [List.cons_append]
    by_cases h2 : nm1 = nm'
    · subst h2
      rw [getCol_cons_self, getCol_cons_self]
    · rw [getCol_cons_ne (by simpa using h2), getCol_cons_ne (by simpa using h2), ih]

theorem getCol_setCol_ne {nm nm' : String} (h : nm' ≠ nm) (t : NTable) (v : NCol) :
    getCol (setCol t nm v) nm' = getCol t nm' := by
  rw [setCol]
  split
  · exact getCol_replaceAll_ne h t v
  · exact getCol_append_ne (by rw [beq_eq_false_iff_ne]; exact fun hc => h hc.symm) t v

theorem hasCol_replaceAll (t : NTable) (nm0 nm' : String) (v : NCol) :
    hasCol (t.map (fun c => if c.1 == nm0 then (nm0, v) else c)) nm' = hasCol t nm' := by
  rw [hasCol, hasCol, List.any_map]
  congr 1
  funext c
  simp only [Function.comp_apply]
  split
  · rename_i hc
    have hk : c.1 = nm0 := by simpa using hc
    rw [← hk]
  · rfl

theorem hasCol_setCol (t : NTable) (nm nm' : String) (v : NCol) :
    hasCol (setCol t nm v) nm' = (hasCol t nm' || (nm == nm')) := by
  rw [setCol]
  split
  · rename_i hhas
    rw [hasCol_replaceAll]
    by_cases h1 : nm = nm'
    · subst h1
      simp [hhas]
    · simp [h1]
  · rw [hasCol, hasCol, List.any_append]
    simp [hasCol, List.any_cons]

theorem hasCol_eq_false_mem {t : NTable} {nm : String} (h : hasCol t nm = false)
    {c : String × NCol} (hc : c ∈ t) : (c.1 == nm) = false := by
  rw [hasCol] at h
  have := List.any_eq_false.mp h
  simpa using this c hc

theorem setCol_mem_eq {t : NTable} {nm : String} {v : NCol} {c : String × NCol}
    (hc : c ∈ setCol t nm v) (hnm : c.1 = nm) : c.2 = v := by
  rw [setCol] at hc
  split at hc
  · obtain ⟨c', hc', heq⟩ := List.mem_map.mp hc
    split at heq
    · rw [← heq]
    · rename_i hne
      subst heq
      rw [hnm] at hne
      simp at hne
  · rename_i hhas
    rcases List.mem_append.mp hc with h1 | h1
    · have := hasCol_eq_false_mem (by simpa using hhas) h1
      rw [hnm] at this
      simp at this
    · simp only [List.mem_singleton] at h1
      rw [h1]

theorem setCol_mem_ne {t : NTable} {nm : String} {v : NCol} {c : String × NCol}
    (hc : c ∈ setCol t nm v) (hnm : c.1 ≠ nm) : c ∈ t := by
  rw [setCol] at hc
  split at hc
  · obtain ⟨c', hc', heq⟩ := List.mem_map.mp hc
    split at heq
    · rw [← heq] at hnm
      simp at hnm
    · rw [← heq]
      exact hc'
  · rcases List.mem_append.mp hc with h1 | h1
    · exact h1
    · simp only [List.mem_singleton] at h1
      rw [h1] at hnm
      simp at hnm

theorem setCol_id {t : NTable} {nm : String} {v : NCol} (hhas : hasCol t nm = true)
    (hall : ∀ c ∈ t, c.1 = nm → c.2 = v) : setCol t nm v = t := by
  rw [setCol, if_pos hhas]
  refine List.map_congr_left (fun c hc => ?_) |>.trans (List.map_id t)
  split
  · rename_i hc1
    have h1 : c.1 = nm := by simpa using hc1
    have h2 := hall c hc h1
    rw [id, ← h1, ← h2]
  · rw [id]

theorem getCol_map_vals (t : NTable) (g : NCol → NCol) (nm : String) :
    getCol (t.map (fun c => (c.1, g c.2))) nm = (getCol t nm).map g := by
  induction t with
  | nil => simp [getCol]
  | cons c t ih =>
    obtain ⟨nm0, c0⟩ := c
    by_cases h : nm0 = nm
    · subst h
      simp only [List.map_cons, getCol_cons_self]
      rfl
    · simp only [List.map_cons, getCol_cons_ne (by simpa using h), ih]

theorem hasCol_map_vals (t : NTable) (g : NCol → NCol) (nm : String) :
    hasCol (t.map (fun c => (c.1, g c.2))) nm = hasCol t nm := by
  rw [hasCol, hasCol, List.any_map]
  rfl

/-! ## Integer canonicalization lemmas -/

theorem parseNatD_natChars_pos {n : Nat} (h : n ≠ 0) :
    parseNatD (natChars n) = some n := by
  rw [parseNatD, if_neg (by simp [List.isEmpty_iff, natChars_ne_nil h]),
    if_pos (by simp only [List.all_eq_true]; exact fun c hc => natChars_digits hc),
    natChars_foldl]

theorem head_natChars_not_dash {n : Nat} {c : Char} {cs : List Char}
    (h : natChars n = c :: cs) : c ≠ '-' := by
  have : c ∈ natChars n := by rw [h]; exact List.mem_cons_self c cs
  exact isDigit_ne_of_not_digit (natChars_digits this) (by decide)

theorem intValOf_mk_dash (ds : List Char) :
    intValOf (String.mk ('-' :: ds)) =
      match parseNatD ds with
      | some n => some (-(n : Int))
      | none => none := rfl

theorem intValOf_mk_nodash {c : Char} (hc : c ≠ '-') (cs : List Char) :
    intValOf (String.mk (c :: cs)) =
      match parseNatD (c :: cs) with
      | some n => some ((n : Int))
      | none => none := by
  rw [intValOf]
  split
  · rename_i ds heq
    have heq2 : c :: cs = '-' :: ds := heq
    injection heq2 with h1 _
    exact absurd h1 hc
  · rfl

theorem intLike_mk_dash (ds : List Char) :
    intLike (String.mk ('-' :: ds)) = (!ds.isEmpty && ds.all (·.isDigit)) := rfl

theorem intLike_mk_nodash {c : Char} (hc : c ≠ '-') (cs : List Char) :
    intLike (String.mk (c :: cs)) = (!(c :: cs).isEmpty && (c :: cs).all (·.isDigit)) := by
  rw [intLike]
  split
  · rename_i ds heq
    have heq2 : c :: cs = '-' :: ds := heq
    injection heq2 with h1 _
    exact absurd h1 hc
  · rfl

theorem parseNatD_some_of {ds : List Char} (h1 : ds.isEmpty = false)
    (h2 : ds.all (·.isDigit) = true) :
    parseNatD ds = some (ds.foldl (fun a c => 10 * a + digitVal c) 0) := by
  rw [parseNatD, if_neg (by simp [h1]), if_pos h2]

theorem intValOf_intRender (i : Int) : intValOf (intRender i) = some i := by
  by_cases hneg : i < 0
  · have habs : i.natAbs ≠ 0 := by
      intro h0
      rw [Int.natAbs_eq_zero] at h0
      omega
    rw [intRender, if_pos hneg, intValOf_mk_dash, parseNatD_natChars_pos habs]
    show some (-(i.natAbs : Int)) = some i
    congr 1
    omega
  · by_cases hz : i = 0
    · subst hz
      rfl
    · have habs : i.natAbs ≠ 0 := by
        intro h0
        rw [Int.natAbs_eq_zero] at h0
        exact hz h0
      obtain ⟨c, cs, hcons⟩ := List.exists_cons_of_ne_nil (natChars_ne_nil habs)
      rw [intRender, if_neg hneg, if_neg (by simpa using hz), hcons,
        intValOf_mk_nodash (head_natChars_not_dash hcons) cs, ← hcons,
        parseNatD_natChars_pos habs]
      show some ((i.natAbs : Int)) = some i
      congr 1
      omega

theorem intLike_intRender (i : Int) : intLike (intRender i) = true := by
  by_cases hneg : i < 0
  · have habs : i.natAbs ≠ 0 := by
      intro h0
      rw [Int.natAbs_eq_zero] at h0
      omega
    rw [intRender, if_pos hneg, intLike_mk_dash]
    simp only [Bool.and_eq_true, Bool.not_eq_true, List.all_eq_true]
    exact ⟨by simp [List.isEmpty_iff, natChars_ne_nil habs],
      fun c hc => natChars_digits hc⟩
  · by_cases hz : i = 0
    · subst hz
      rfl
    · have habs : i.natAbs ≠ 0 := by
        intro h0
        rw [Int.natAbs_eq_zero] at h0
        exact hz h0
      obtain ⟨c, cs, hcons⟩ := List.exists_cons_of_ne_nil (natChars_ne_nil habs)
      rw [intRender, if_neg hneg, if_neg (by simpa using hz), hcons,
        intLike_mk_nodash (head_natChars_not_dash hcons) cs, ← hcons]
      simp only [Bool.and_eq_true, Bool.not_eq_true, List.all_eq_true]
      exact ⟨by simp [List.isEmpty_iff, natChars_ne_nil habs],
        fun x hx => natChars_digits hx⟩

theorem intValOf_some_of_intLike {s : String} (h : intLike s = true) :
    ∃ i, intValOf s = some i := by
  obtain ⟨data⟩ := s
  cases data with
  | nil => exact absurd h (by decide)
  | cons c cs =>
    by_cases hc : c = '-'
    · subst hc
      rw [intLike_mk_dash, Bool.and_eq_true] at h
      rw [intValOf_mk_dash, parseNatD_some_of (by simpa using h.1) h.2]
      exact ⟨_, rfl⟩
    · rw [intLike_mk_nodash hc, Bool.and_eq_true] at h
      rw [intValOf_mk_nodash hc,
        parseNatD_some_of (show (c :: cs).isEmpty = false from rfl) h.2]
      exact ⟨_, rfl⟩

theorem canonInt_eq_of_some {s : String} {i : Int} (h : intValOf s = some i) :
    canonInt s = intRender i := by
  rw [canonInt, h]

theorem canonInt_eq_of_none {s : String} (h : intValOf s = none) :
    canonInt s = s := by
  rw [canonInt, h]

theorem canonInt_idem (s : String) : canonInt (canonInt s) = canonInt s := by
  rcases hi : intValOf s with _ | i
  · rw [canonInt_eq_of_none hi]
    exact canonInt_eq_of_none hi
  · rw [canonInt_eq_of_some hi, canonInt_eq_of_some (intValOf_intRender i)]

theorem intLike_canonInt {s : String} (h : intLike s = true) :
    intLike (canonInt s) = true := by
  obtain ⟨i, hi⟩ := intValOf_some_of_intLike h
  rw [canonInt_eq_of_some hi]
  exact intLike_intRender i

theorem coordAstype_idem (vs : List String) :
    coordAstype (coordAstype vs) = coordAstype vs := by
  by_cases h : vs.all intLike = true
  · have hv : coordAstype vs = vs.map canonInt := by rw [coordAstype, if_pos h]
    have h2 : ((vs.map canonInt).all intLike) = true := by
      rw [List.all_eq_true] at h ⊢
      intro s hs
      obtain ⟨w, hw, hws⟩ := List.mem_map.mp hs
      rw [← hws]
      exact intLike_canonInt (h w hw)
    rw [hv, coordAstype, if_pos h2, List.map_map]
    apply List.map_congr_left
    intro s hs
    simp only [Function.comp_apply]
    exact canonInt_idem s
  · have hv : coordAstype vs = vs := by rw [coordAstype, if_neg h]
    rw [hv]
    exact hv

/-! ## Pipeline-shape lemmas -/

theorem setCol_mem_val {t : NTable} {nm : String} {v : NCol} {c : String × NCol}
    (hc : c ∈ setCol t nm v) : c.2 = v ∨ c ∈ t := by
  rw [setCol] at hc
  split at hc
  · obtain ⟨c', hc', heq⟩ := List.mem_map.mp hc
    split at heq
    · left
      rw [← heq]
    · right
      rw [← heq]
      exact hc'
  · rcases List.mem_append.mp hc with h1 | h1
    · right
      exact h1
    · left
      simp only [List.mem_singleton] at h1
      rw [h1]

theorem getCol_mem {t : NTable} {nm : String} {v : NCol} (h : getCol t nm = some v) :
    ∃ nm', (nm', v) ∈ t := by
  rw [getCol] at h
  rcases hf : t.find? (fun c => c.1 == nm) with _ | c
  · rw [hf] at h
    exact absurd h (by simp)
  · rw [hf] at h
    simp only [Option.map_some', Option.some_inj] at h
    have hmem := List.mem_of_find?_eq_some hf
    refine ⟨c.1, ?_⟩
    rw [← h]
    exact hmem

theorem addIC_cons {nm0 : String} {c0 : NCol} {u : NTable} {name : String}
    (h1 : (nm0 == "INDICATOR") = false) (h2 : (nm0 == "COORDINATE") = false) :
    ∃ tl : NTable,
      addIndicatorCoordinate ((nm0, c0) :: u) name = (nm0, c0) :: tl := by
  rw [addIndicatorCoordinate]
  rw [setCol_cons_ne h1]
  split
  · rw [setCol_cons_ne h2]
    exact ⟨_, rfl⟩
  · exact ⟨_, rfl⟩

theorem hasCol_addIC (t0 : NTable) (name nm : String)
    (h1 : ("INDICATOR" == nm) = false) (h2 : ("COORDINATE" == nm) = false) :
    hasCol (addIndicatorCoordinate t0 name) nm = hasCol t0 nm := by
  rw [addIndicatorCoordinate]
  split
  · rw [hasCol_setCol, hasCol_setCol, h1, h2, Bool.or_false, Bool.or_false]
  · rw [hasCol_setCol, h1, Bool.or_false]

theorem getCol_addIC (t0 : NTable) (name : String) {nm : String}
    (h1 : nm ≠ "INDICATOR") (h2 : nm ≠ "COORDINATE") :
    getCol (addIndicatorCoordinate t0 name) nm = getCol t0 nm := by
  rw [addIndicatorCoordinate]
  split
  · rw [getCol_setCol_ne h2, getCol_setCol_ne h1]
  · rw [getCol_setCol_ne h1]

theorem addIC_zero_rows {t0 : NTable} (h : ∀ c ∈ t0, colLen c.2 = 0) (name : String) :
    ∀ c ∈ addIndicatorCoordinate t0 name, colLen c.2 = 0 := by
  have hrc : rowCount t0 = 0 := by
    cases t0 with
    | nil => rfl
    | cons c u => exact h c (List.mem_cons_self c u)
  have h1 : ∀ c ∈ setCol t0 "INDICATOR"
      (.strCol (List.replicate (rowCount t0) name)), colLen c.2 = 0 := by
    intro c hc
    rcases setCol_mem_val hc with hv | hv
    · rw [hv, hrc]
      simp [colLen]
    · exact h c hv
  rw [addIndicatorCoordinate]
  split
  · intro c hc
    rcases setCol_mem_val hc with hv | hv
    · rw [hv]
      rename_i hhas
      simp only [colLen]
      rcases hg : getCol (setCol t0 "INDICATOR"
          (.strCol (List.replicate (rowCount t0) name))) "COORDINATE" with _ | col
      · simp [getColStrings, hg, coordAstype]
      · obtain ⟨nm', hmem⟩ := getCol_mem hg
        have hl : colLen col = 0 := h1 _ hmem
        have hl2 : colToStrings col = [] := by
          have := colToStrings_length col
          rw [hl] at this
          exact List.length_eq_zero.mp this
        simp [getColStrings, hg, hl2, coordAstype]
    · exact h1 c hv
  · exact h1

theorem firstCellStr_zero {t : NTable} (h : ∀ c ∈ t, colLen c.2 = 0) :
    firstCellStr t = none := by
  cases t with
  | nil => rfl
  | cons c u =>
    rw [firstCellStr]
    have hl : colToStrings c.2 = [] := by
      have h1 := h c (List.mem_cons_self c u)
      have := colToStrings_length c.2
      rw [h1] at this
      exact List.length_eq_zero.mp this
    rw [hl]
    rfl

/-! ## `applyRule` lemmas -/

theorem applyRule_no_col {t : NTable} (h : getCol t "REF_DATE" = none)
    (f : String → Option Date) : applyRule t f = .error .dataError := by
  rw [applyRule, h]

theorem applyRule_parse_fail {t : NTable} {col : NCol}
    (hc : getCol t "REF_DATE" = some col) {f : String → Option Date}
    (h : seqParse f (colToStrings col) = none) : applyRule t f = .error .dataError := by
  rw [applyRule, hc]
  show (match seqParse f (colToStrings col) with
    | none => Except.error StatError.dataError
    | some ds => Except.ok (setCol t "REF_DATE" (NCol.dateCol ds))) =
      Except.error StatError.dataError
  rw [h]

theorem applyRule_ok {t : NTable} {col : NCol}
    (hc : getCol t "REF_DATE" = some col) {f : String → Option Date} {ds : List Date}
    (h : seqParse f (colToStrings col) = some ds) :
    applyRule t f = .ok (setCol t "REF_DATE" (.dateCol ds)) := by
  rw [applyRule, hc]
  show (match seqParse f (colToStrings col) with
    | none => Except.error StatError.dataError
    | some ds => Except.ok (setCol t "REF_DATE" (NCol.dateCol ds))) =
      Except.ok (setCol t "REF_DATE" (NCol.dateCol ds))
  rw [h]

theorem applyRule_eq_ok {t : NTable} {f : String → Option Date} {out : NTable}
    (h : applyRule t f = .ok out) :
    ∃ col ds, getCol t "REF_DATE" = some col ∧
      seqParse f (colToStrings col) = some ds ∧
      out = setCol t "REF_DATE" (.dateCol ds) := by
  rw [applyRule] at h
  rcases hg : getCol t "REF_DATE" with _ | col
  · rw [hg] at h
    exact absurd h (by simp)
  · rw [hg] at h
    have h2 : (match seqParse f (colToStrings col) with
      | none => Except.error StatError.dataError
      | some ds => Except.ok (setCol t "REF_DATE" (NCol.dateCol ds))) =
        Except.ok out := h
    rcases hs : seqParse f (colToStrings col) with _ | ds
    · rw [hs] at h2
      exact absurd h2 (by simp)
    · rw [hs] at h2
      simp only [Except.ok.injEq] at h2
      exact ⟨col, ds, rfl, hs, h2.symm⟩

/-! ## `pySplitN2` and `csvFields` lemmas (for C4) -/

theorem pySplitN2_one (l1 : String) (h1 : '\n' ∉ l1.data) :
    pySplitN2 l1 = [l1] := by
  rw [pySplitN2, splitOnChar_of_not_mem h1]

theorem pySplitN2_two (l1 l2 : String) (h1 : '\n' ∉ l1.data) (h2 : '\n' ∉ l2.data) :
    pySplitN2 (l1 ++ "\n" ++ l2) = [l1, l2] := by
  rw [pySplitN2]
  have hd : (l1 ++ "\n" ++ l2).data = l1.data ++ '\n' :: l2.data := by
    rw [data_append, data_append]
    simp [List.append_assoc]
  rw [hd, splitOnChar_append _ h1, splitOnChar_of_not_mem h2]

theorem pySplitN2_three (l1 l2 rest : String) (h1 : '\n' ∉ l1.data)
    (h2 : '\n' ∉ l2.data) :
    ∃ tail3 : String, pySplitN2 (l1 ++ "\n" ++ l2 ++ "\n" ++ rest) = [l1, l2, tail3] := by
  rw [pySplitN2]
  have hd : (l1 ++ "\n" ++ l2 ++ "\n" ++ rest).data =
      l1.data ++ '\n' :: (l2.data ++ '\n' :: rest.data) := by
    rw [data_append, data_append, data_append, data_append]
    simp [List.append_assoc]
  rw [hd, splitOnChar_append _ h1, splitOnChar_append _ h2]
  obtain ⟨r, rs, hr⟩ := List.exists_cons_of_ne_nil (splitOnChar_ne_nil '\n' rest.data)
  rw [hr]
  refine ⟨String.mk (joinNl (r :: rs)), ?_⟩
  show [String.mk l1.data, String.mk l2.data, String.mk (joinNl (r :: rs))] = _
  rw [mk_data, mk_data]

/-! ## Alternation-pattern lemmas (for C3) -/

theorem pyJoin_chars {sep : String} {kws : List String} {c : Char}
    (h : c ∈ (pyJoin sep kws).data) : c ∈ sep.data ∨ ∃ k ∈ kws, c ∈ k.data := by
  induction kws with
  | nil => exact absurd h (by simp [pyJoin])
  | cons k ks ih =>
    cases ks with
    | nil =>
      right
      exact ⟨k, List.mem_cons_self k [], h⟩
    | cons k2 ks2 =>
      have heq : pyJoin sep (k :: k2 :: ks2) = k ++ sep ++ pyJoin sep (k2 :: ks2) := rfl
      rw [heq, data_append, data_append] at h
      rcases List.mem_append.mp h with h1 | h1
      · rcases List.mem_append.mp h1 with h2 | h2
        · right
          exact ⟨k, List.mem_cons_self _ _, h2⟩
        · left
          exact h2
      · rcases ih h1 with h2 | ⟨k', hk', hck'⟩
        · left
          exact h2
        · right
          exact ⟨k', List.mem_cons_of_mem _ hk', hck'⟩

theorem splitOnChar_pyJoin {kws : List String} (hne : kws ≠ [])
    (h : ∀ k ∈ kws, '|' ∉ k.data) :
    splitOnChar '|' (pyJoin "|" kws).data = kws.map (·.data) := by
  induction kws with
  | nil => exact absurd rfl hne
  | cons k ks ih =>
    cases ks with
    | nil =>
      rw [pyJoin, splitOnChar_of_not_mem (h k (List.mem_cons_self k []))]
      rfl
    | cons k2 ks2 =>
      have heq : pyJoin "|" (k :: k2 :: ks2) = k ++ "|" ++ pyJoin "|" (k2 :: ks2) := rfl
      rw [heq]
      have hd : (k ++ "|" ++ pyJoin "|" (k2 :: ks2)).data =
          k.data ++ '|' :: (pyJoin "|" (k2 :: ks2)).data := by
        rw [data_append, data_append]
        simp [List.append_assoc]
      rw [hd, splitOnChar_append _ (h k (List.mem_cons_self k _)),
        ih (by simp) (fun k' hk' => h k' (List.mem_cons_of_mem _ hk'))]
      rfl

theorem parseAltLits_keywords_or {kws : List String} (hne : kws ≠ [])
    (h : ∀ k ∈ kws, k.data.all (fun c => !reMeta c) = true) :
    parseAltLits (keywords_or kws) = some kws := by
  have hpipe : ∀ k ∈ kws, '|' ∉ k.data := by
    intro k hk hc
    have := (List.all_eq_true.mp (h k hk)) _ hc
    simp [reMeta] at this
  rw [keywords_or, parseAltLits]
  have hd : ("(" ++ pyJoin "|" kws ++ ")").data =
      '(' :: ((pyJoin "|" kws).data ++ [')']) := by
    rw [data_append, data_append]
    simp [List.append_assoc]
  rw [hd]
  show (if ((pyJoin "|" kws).data ++ [')']).getLast? == some ')' &&
      ((pyJoin "|" kws).data ++ [')']).dropLast.all (fun c => c == '|' || !reMeta c) then
      some ((splitOnChar '|' (((pyJoin "|" kws).data ++ [')']).dropLast)).map String.mk)
    else none) = some kws
  rw [List.getLast?_concat, List.dropLast_concat]
  rw [if_pos ?side]
  case side =>
    simp only [beq_self_eq_true, Bool.true_and, List.all_eq_true]
    intro c hc
    rcases pyJoin_chars hc with h1 | ⟨k, hk, hck⟩
    · have : c = '|' := by simpa using h1
      simp [this]
    · have := (List.all_eq_true.mp (h k hk)) _ hck
      simp only [Bool.or_eq_true]
      right
      exact this
  rw [splitOnChar_pyJoin hne hpipe, List.map_map]
  congr 1
  refine (List.map_congr_left fun k hk => mk_data k).trans (List.map_id kws)

theorem reSearch_keywords_or {kws : List String} (hne : kws ≠ [])
    (h : ∀ k ∈ kws, k.data.all (fun c => !reMeta c) = true) (s : String) :
    reSearch (keywords_or kws) s = .ok (kws.any (fun k => hasSub k.data s.data)) := by
  rw [reSearch, parseAltLits_keywords_or hne h]

theorem any_false {α : Type} (l : List α) : l.any (fun _ => false) = false := by
  induction l with
  | nil => rfl
  | cons x xs ih => simp [List.any_cons, ih]

theorem any_or_distrib {α : Type} (l : List α) (p q : α → Bool) :
    l.any (fun x => p x || q x) = (l.any p || l.any q) := by
  induction l with
  | nil => rfl
  | cons x xs ih =>
    simp only [List.any_cons, ih]
    rcases p x <;> rcases q x <;> rcases xs.any p <;> rcases xs.any q <;> rfl

/-- Spec-side characterization of one keyword hitting one nullable field:
a literal, case-sensitive substring occurrence (null never matches). -/
def keywordHits (k : String) : Option String → Bool
  | none => false
  | some s => hasSub k.data s.data

theorem reMatch_eq_any_keywordHits {kws : List String} (hne : kws ≠ [])
    (h : ∀ k ∈ kws, k.data.all (fun c => !reMeta c) = true) (item : Option String) :
    reMatch (keywords_or kws) item = .ok (kws.any (fun k => keywordHits k item)) := by
  cases item with
  | none =>
    show Except.ok false = Except.ok (kws.any (fun k => keywordHits k none))
    rw [show (fun k : String => keywordHits k none) = (fun _ => false) from rfl, any_false]
  | some s =>
    show reSearch (keywords_or kws) s = _
    rw [reSearch_keywords_or hne h s]
    rfl

/-- On metacharacter-free keywords, the per-row `OR` of the two `MATCHES`
calls succeeds and computes the keyword-hit disjunction. -/
theorem rowMatches_keywords {kws : List String} (hne : kws ≠ [])
    (hlit : ∀ k ∈ kws, k.data.all (fun c => !reMeta c) = true) (r : DbRow) :
    rowMatches (keywords_or kws) r =
      .ok (kws.any fun k => keywordHits k r.title || keywordHits k r.description) := by
  rw [rowMatches, reMatch_eq_any_keywordHits hne hlit r.description,
    reMatch_eq_any_keywordHits hne hlit r.title]
  rcases hb : kws.any (fun k => keywordHits k r.title) with _ | _
  · show Except.ok (kws.any fun k => keywordHits k r.description) = _
    rw [any_or_distrib, hb, Bool.false_or]
  · show Except.ok true = _
    rw [any_or_distrib, hb, Bool.true_or]

/-- When every row's `MATCHES` disjunction succeeds with value `p r`, the
whole scan succeeds and returns the filtered rows in store order. -/
theorem scanRows_ok (expr : String) (p : DbRow → Bool)
    (rows : List (Nat × DbRow))
    (h : ∀ r ∈ rows, rowMatches expr r.2 = .ok (p r.2)) :
    scanRows expr rows = .ok ((rows.map (·.2)).filter p) := by
  induction rows with
  | nil => rfl
  | cons r rs ih =>
    have h1 := h r (List.mem_cons_self _ _)
    have h2 := ih (fun r' hr' => h r' (List.mem_cons_of_mem _ hr'))
    show (match rowMatches expr r.2 with
      | Except.error e => (Except.error e : Except StatError (List DbRow))
      | Except.ok b =>
        match scanRows expr rs with
        | Except.error e => Except.error e
        | Except.ok tail => Except.ok (if b then r.2 :: tail else tail)) = _
    rw [h1, h2]
    show Except.ok (if p r.2 then r.2 :: (rs.map (·.2)).filter p
      else (rs.map (·.2)).filter p) = _
    rw [List.map_cons, List.filter_cons]

/-! ## Dispatch and pass-two helper lemmas -/

/-- The REF_DATE construction rule selected from the first cell, as spec
section 4.1 describes the branches of `get_df_pandas` (lines 130–145). -/
def selRule (rd : String) : String → Option Date :=
  if rd.length == 4 then fun s => to_datetime (s ++ "-1-1")
  else if rd.length == 7 then fun s => to_datetime (s ++ "-1")
  else if rd.length == 9 then fun s => to_datetime (afterLastSlash s ++ "-3-31")
  else fun s => to_datetime s

/-- Reading a normalized table back from CSV turns every column into its
shown strings. -/
def strified (t : NTable) : NTable :=
  t.map (fun c => (c.1, NCol.strCol (colToStrings c.2)))

theorem toN_reencode (t : NTable) : toN (reencode t) = strified t := by
  rw [toN, reencode, List.map_map]
  rfl

theorem getCol_strified (t : NTable) (nm : String) :
    getCol (strified t) nm =
      (getCol t nm).map (fun col => NCol.strCol (colToStrings col)) := by
  rw [strified]
  exact getCol_map_vals t (fun col => NCol.strCol (colToStrings col)) nm

theorem hasCol_strified (t : NTable) (nm : String) :
    hasCol (strified t) nm = hasCol t nm := by
  rw [strified]
  exact hasCol_map_vals t (fun col => NCol.strCol (colToStrings col)) nm

theorem hasCol_of_getCol {t : NTable} {nm : String} {v : NCol}
    (h : getCol t nm = some v) : hasCol t nm = true := by
  rw [getCol] at h
  rcases hf : t.find? (fun c => c.1 == nm) with _ | c
  · rw [hf] at h
    simp at h
  · rw [hasCol, List.any_eq_true]
    have hp := List.find?_some hf
    exact ⟨c, List.mem_of_find?_eq_some hf, hp⟩

theorem addIC_refdate_first (vs : List String) (rest : RTable) (name : String) :
    ∃ tl : NTable,
      addIndicatorCoordinate (toN (("REF_DATE", vs) :: rest)) name =
        ("REF_DATE", NCol.strCol vs) :: tl := by
  have h : toN (("REF_DATE", vs) :: rest) = ("REF_DATE", NCol.strCol vs) :: toN rest := rfl
  rw [h]
  exact addIC_cons (by decide) (by decide)

/-- The dispatch of `get_df_pandas` on a table whose first column is
REF_DATE with a non-empty value list. -/
theorem normalize_pandas_first (v0 : String) (vs : List String) (rest : RTable)
    (name : String) :
    ∃ tl, addIndicatorCoordinate (toN (("REF_DATE", v0 :: vs) :: rest)) name =
        ("REF_DATE", NCol.strCol (v0 :: vs)) :: tl ∧
      normalize_pandas (("REF_DATE", v0 :: vs) :: rest) name =
        (if v0.length == 4 then
          applyRule (("REF_DATE", NCol.strCol (v0 :: vs)) :: tl)
            (fun s => to_datetime (s ++ "-1-1"))
         else if v0.length == 7 then
          applyRule (("REF_DATE", NCol.strCol (v0 :: vs)) :: tl)
            (fun s => to_datetime (s ++ "-1"))
         else if v0.length == 9 then
          (match applyRule (("REF_DATE", NCol.strCol (v0 :: vs)) :: tl)
              (fun s => to_datetime (afterLastSlash s ++ "-3-31")) with
           | .ok t3 => .ok (setCol t3 "REF_PERIOD"
               (.strCol (List.replicate (rowCount t3) "Fiscal year")))
           | .error e => .error e)
         else applyRule (("REF_DATE", NCol.strCol (v0 :: vs)) :: tl)
            (fun s => to_datetime s)) := by
  obtain ⟨tl, htl⟩ := addIC_refdate_first (v0 :: vs) rest name
  refine ⟨tl, htl, ?_⟩
  simp only [normalize_pandas]
  rw [htl]
  rfl

theorem addIC_ind_val (t0 : NTable) (name : String) :
    ∀ c ∈ addIndicatorCoordinate t0 name, c.1 = "INDICATOR" →
      c.2 = NCol.strCol (List.replicate (rowCount t0) name) := by
  simp only [addIndicatorCoordinate]
  split
  · intro c hc h1
    exact setCol_mem_eq (setCol_mem_ne hc (by rw [h1]; decide)) h1
  · intro c hc h1
    exact setCol_mem_eq hc h1

theorem hasCol_addIC_ind (t0 : NTable) (name : String) :
    hasCol (addIndicatorCoordinate t0 name) "INDICATOR" = true := by
  simp only [addIndicatorCoordinate]
  split
  · rw [hasCol_setCol, hasCol_setCol]
    simp
  · rw [hasCol_setCol]
    simp

theorem hasCol_addIC_coord (t0 : NTable) (name : String) :
    hasCol (addIndicatorCoordinate t0 name) "COORDINATE" =
      hasCol t0 "COORDINATE" := by
  have h1 : (("INDICATOR" : String) == "COORDINATE") = false := by decide
  have hbase : hasCol (setCol t0 "INDICATOR"
      (NCol.strCol (List.replicate (rowCount t0) name))) "COORDINATE" =
      hasCol t0 "COORDINATE" := by
    rw [hasCol_setCol, h1, Bool.or_false]
  simp only [addIndicatorCoordinate]
  split
  · rename_i hh
    rw [hbase] at hh
    rw [hasCol_setCol, hbase, hh]
    rfl
  · exact hbase

theorem addIC_coord_val (t0 : NTable) (name : String)
    (hhas : hasCol t0 "COORDINATE" = true) :
    ∃ ws, getCol (addIndicatorCoordinate t0 name) "COORDINATE" =
        some (NCol.strCol (coordAstype ws)) ∧
      ∀ c ∈ addIndicatorCoordinate t0 name, c.1 = "COORDINATE" →
        c.2 = NCol.strCol (coordAstype ws) := by
  simp only [addIndicatorCoordinate]
  have hhas1 : hasCol (setCol t0 "INDICATOR"
      (NCol.strCol (List.replicate (rowCount t0) name))) "COORDINATE" = true := by
    rw [hasCol_setCol]
    simp [hhas]
  rw [if_pos hhas1]
  refine ⟨getColStrings (setCol t0 "INDICATOR"
      (NCol.strCol (List.replicate (rowCount t0) name))) "COORDINATE", ?_, ?_⟩
  · exact getCol_setCol_self _ _ _
  · intro c hc h1
    exact setCol_mem_eq hc h1

theorem addIC_toN_strCol (t : RTable) (name : String) :
    ∀ c ∈ addIndicatorCoordinate (toN t) name, ∃ ws, c.2 = NCol.strCol ws := by
  have h0 : ∀ c ∈ toN t, ∃ ws, c.2 = NCol.strCol ws := by
    intro c hc
    obtain ⟨c', _, heq⟩ := List.mem_map.mp hc
    exact ⟨c'.2, by rw [← heq]⟩
  simp only [addIndicatorCoordinate]
  split
  · intro c hc
    rcases setCol_mem_val hc with hv | hv
    · exact ⟨_, hv⟩
    · rcases setCol_mem_val hv with hv2 | hv2
      · exact ⟨_, hv2⟩
      · exact h0 c hv2
  · intro c hc
    rcases setCol_mem_val hc with hv | hv
    · exact ⟨_, hv⟩
    · exact h0 c hv

theorem seqParse_renders {ds : List Date}
    (h : ∀ d ∈ ds, Date.ok d = true ∧ d.year < 10000) :
    seqParse to_datetime (ds.map isoRender) = some ds := by
  induction ds with
  | nil => rfl
  | cons d ds ih =>
    obtain ⟨hok, hy⟩ := h d (List.mem_cons_self _ _)
    simp only [List.map_cons, seqParse, to_datetime_isoRender hok hy,
      ih (fun d hd => h d (List.mem_cons_of_mem _ hd))]

theorem isoRender_length {d : Date} (hok : Date.ok d = true) (hy : d.year < 10000) :
    (isoRender d).length = 10 := by
  show (natPad 4 d.year ++ '-' :: (natPad 2 d.month ++ '-' :: natPad 2 d.day)).length = 10
  rw [List.length_append, List.length_cons, List.length_append, List.length_cons]
  rw [natPad_length hy,
    natPad_length (by have := month_le_12 hok; omega),
    natPad_length (by have := day_le_31 hok; omega)]

theorem normalize_pandas_none (t : RTable) (name : String)
    (hfc : firstCellStr (addIndicatorCoordinate (toN t) name) = none) :
    normalize_pandas t name = .error .dataError := by
  simp only [normalize_pandas]
  rw [hfc]

theorem normalize_pandas_dispatch (t : RTable) (name rd : String)
    (hfc : firstCellStr (addIndicatorCoordinate (toN t) name) = some rd) :
    normalize_pandas t name =
      (if rd.length == 4 then
        applyRule (addIndicatorCoordinate (toN t) name) (fun s => to_datetime (s ++ "-1-1"))
       else if rd.length == 7 then
        applyRule (addIndicatorCoordinate (toN t) name) (fun s => to_datetime (s ++ "-1"))
       else if rd.length == 9 then
        (match applyRule (addIndicatorCoordinate (toN t) name)
            (fun s => to_datetime (afterLastSlash s ++ "-3-31")) with
         | .ok t3 => .ok (setCol t3 "REF_PERIOD"
             (.strCol (List.replicate (rowCount t3) "Fiscal year")))
         | .error e => .error e)
       else applyRule (addIndicatorCoordinate (toN t) name) (fun s => to_datetime s)) := by
  simp only [normalize_pandas]
  rw [hfc]

theorem numericLike_of_intLike {s : String} (h : intLike s = true) :
    numericLike s = true := by
  obtain ⟨data⟩ := s
  cases data with
  | nil => rfl
  | cons c cs =>
    rw [numericLike, Bool.and_eq_true]
    constructor
    · rw [List.all_eq_true]
      by_cases hc : c = '-'
      · subst hc
        rw [intLike_mk_dash, Bool.and_eq_true, List.all_eq_true] at h
        intro x hx
        rcases List.mem_cons.mp hx with h1 | h1
        · subst h1
          rfl
        · simp [h.2 x h1]
      · rw [intLike_mk_nodash hc, Bool.and_eq_true, List.all_eq_true] at h
        intro x hx
        simp [h.2 x hx]
    · rw [decide_eq_true_eq]
      have hnomem : '.' ∉ (String.mk (c :: cs)).data := by
        intro hmem
        by_cases hc : c = '-'
        · subst hc
          rw [intLike_mk_dash, Bool.and_eq_true, List.all_eq_true] at h
          rcases List.mem_cons.mp hmem with h1 | h1
          · exact absurd h1.symm (by decide)
          · have := h.2 _ h1
            exact absurd this (by decide)
        · rw [intLike_mk_nodash hc, Bool.and_eq_true, List.all_eq_true] at h
          have := h.2 _ hmem
          exact absurd this (by decide)
      rw [List.count_eq_zero.mpr hnomem]
      omega

/-! ## Claim theorems -/

/-- C6 counterexample: a freshly constructed catalog store is in the
Empty state, and `search` on it fails (the `connection` attribute is only
created by `load`, so Python raises `AttributeError`) rather than
returning an empty sequence as the claim states. -/
theorem C6_counterexample :
    mkDatabase.search ["housing"] = .error .attributeError := rfl

/-- C6 (amended): on every catalog store in the Empty state (no successful
`load` has occurred), `search` is not a valid operation: it always fails
with the `AttributeError` failure, for every keyword sequence, and never
returns an empty sequence of entries. -/
theorem C6_empty_search_raises (db : MetadataDatabase) (args : List String)
    (h : db.connection = none) : db.search args = .error .attributeError := by
  rw [MetadataDatabase.search, h]

theorem C6_witness : mkDatabase.search ["zzz"] = .error .attributeError :=
  C6_empty_search_raises mkDatabase ["zzz"] rfl

/-- C7: `load` only appends entries, each with a freshly assigned
sequential store-local id (`AUTOINCREMENT`, continuing after the existing
entries), and never replaces or removes prior contents; in particular,
loading the same `n`-row source twice into a fresh store leaves exactly
`2 * n` entries. -/
theorem C7_load_append_only :
    (∀ (db : MetadataDatabase) (rows : List DbRow),
        (db.load rows).connection =
          some ((db.connection.getD []) ++
            rows.enum.map (fun p => ((db.connection.getD []).length + p.1 + 1, p.2)))) ∧
    (∀ rows : List DbRow,
        (((mkDatabase.load rows).load rows).connection.getD []).length = 2 * rows.length) := by
  constructor
  · intro db rows
    rfl
  · intro rows
    simp only [MetadataDatabase.load, mkDatabase, Option.getD_some, Option.getD_none,
      List.nil_append, List.length_append, List.length_map, List.enum_length]
    omega

/-- C2 (code-bug evaluation): on a fiscal-year table the pandas backend
constructs the claimed March-31 date of the trailing year, but writes
`REF_PERIOD = "Fiscal year"` (lowercase y, client.py line 141), while the
claim — matching the polars backend, line 112 — requires the literal to be
exactly `"Fiscal Year"`. -/
theorem C2_pandas_fiscal_year_literal :
    normalize_pandas [("REF_DATE", ["2019/2020"])] "Gross domestic product" =
      .ok [("REF_DATE", .dateCol [⟨2020, 3, 31⟩]),
           ("INDICATOR", .strCol ["Gross domestic product"]),
           ("REF_PERIOD", .strCol ["Fiscal year"])] ∧
    "Fiscal year" ≠ "Fiscal Year" := ⟨rfl, by decide⟩

/-- C1 counterexample: the polars backend has no branch for REF_DATE
lengths other than 4, 7 and 9, so on a table whose first value has
length 10 it returns the frame with `REF_DATE` still a raw string column —
no calendar-date parsing is attempted, contradicting the claim. -/
theorem C1_counterexample :
    normalize_polars [("REF_DATE", ["2021-01-02"])] "Population estimates" =
      .ok [("REF_DATE", .strCol ["2021-01-02"]),
           ("INDICATOR", .strCol ["Population estimates"])] := rfl

/-- C5 counterexample: on a table that lacks a REF_DATE column and whose
first value cannot be parsed as a date, the polars backend does not fail
at all (its other-length path touches nothing), contradicting the claim
that normalization fails with `DataError` whenever REF_DATE is missing. -/
theorem C5_counterexample :
    normalize_polars [("GEO", ["not a date"])] "Population estimates" =
      .ok [("GEO", .strCol ["not a date"]),
           ("INDICATOR", .strCol ["Population estimates"])] := rfl

/-- C8 counterexample: `read_csv` parses an all-integer COORDINATE column
as `int64` before `astype(str)` runs, so the raw cell `"01"` normalizes to
the text `"1"` — the exact original formatting is not preserved. -/
theorem C8_counterexample :
    normalize_pandas [("REF_DATE", ["2021"]), ("COORDINATE", ["01"])] "Labour force" =
      .ok [("REF_DATE", .dateCol [⟨2021, 1, 1⟩]),
           ("COORDINATE", .strCol ["1"]),
           ("INDICATOR", .strCol ["Labour force"])] ∧
    ("1" : String) ≠ "01" := ⟨rfl, by decide⟩

/-- C9 counterexample: normalization is not idempotent for every raw
table.  When REF_DATE is not the first column, the length classification
reads the first column (`df.iloc[0, 0]`); here the first pass succeeds
via the length-4 rule, but re-normalizing the re-encoded output appends
`"-1-1"` to the already-ISO REF_DATE values and fails with `DataError`. -/
theorem C9_counterexample :
    normalize_pandas [("GEO", ["abcd"]), ("REF_DATE", ["2021"])] "Trade" =
      .ok [("GEO", .strCol ["abcd"]),
           ("REF_DATE", .dateCol [⟨2021, 1, 1⟩]),
           ("INDICATOR", .strCol ["Trade"])] ∧
    normalize_pandas
      (reencode [("GEO", .strCol ["abcd"]),
           ("REF_DATE", .dateCol [⟨2021, 1, 1⟩]),
           ("INDICATOR", .strCol ["Trade"])]) "Trade" = .error .dataError :=
  ⟨rfl, rfl⟩

/-- C4: for every metadata blob with at least two newline-separated lines
whose second line CSV-decodes to at least one field, `dataset_name`
returns exactly the first field of the CSV-decoded second line; it fails
with `FormatError` when fewer than two lines are present or when the
second line decodes to no field. -/
theorem C4_dataset_name (l1 l2 rest : String)
    (h1 : '\n' ∉ l1.data) (h2 : '\n' ∉ l2.data) :
    (∀ f fs, csvFields l2 = f :: fs →
        dataset_name (l1 ++ "\n" ++ l2 ++ "\n" ++ rest) = .ok f ∧
        dataset_name (l1 ++ "\n" ++ l2) = .ok f) ∧
    (csvFields l2 = [] →
        dataset_name (l1 ++ "\n" ++ l2 ++ "\n" ++ rest) = .error .formatError ∧
        dataset_name (l1 ++ "\n" ++ l2) = .error .formatError) ∧
    dataset_name l1 = .error .formatError := by
  obtain ⟨tail3, h3⟩ := pySplitN2_three l1 l2 rest h1 h2
  have h2l := pySplitN2_two l1 l2 h1 h2
  have h1l := pySplitN2_one l1 h1
  have red3 : dataset_name (l1 ++ "\n" ++ l2 ++ "\n" ++ rest) =
      (match csvFields l2 with
       | f :: _ => Except.ok f
       | [] => Except.error StatError.formatError) := by
    rw [dataset_name, h3]
  have red2 : dataset_name (l1 ++ "\n" ++ l2) =
      (match csvFields l2 with
       | f :: _ => Except.ok f
       | [] => Except.error StatError.formatError) := by
    rw [dataset_name, h2l]
  refine ⟨?_, ?_, ?_⟩
  · intro f fs hf
    constructor
    · rw [red3, hf]
    · rw [red2, hf]
  · intro hf
    constructor
    · rw [red3, hf]
    · rw [red2, hf]
  · rw [dataset_name, h1l]

theorem C4_witness :
    dataset_name ("Cube Title,x" ++ "\n" ++ "\"Gross domestic product\",q" ++ "\n" ++ "tl") =
      .ok "Gross domestic product" :=
  ((C4_dataset_name "Cube Title,x" "\"Gross domestic product\",q" "tl"
    (by decide) (by decide)).1 "Gross domestic product" ["q"] (by rfl)).1

theorem reMatch_none (e : String) : reMatch e none = .ok false := rfl

/-- C10 counterexample: `search` does fail on a store whose only entry has
a null description.  The keyword `"("` joins to the pattern `"(()"`, which
is not a valid regular expression, so `re.search` raises `re.error` inside
the `MATCHES` user function when it reaches the non-null title, and the
query fails with `sqlite3.OperationalError` — the null-description entry
is neither returned nor rejected by a title match. -/
theorem C10_counterexample :
    (MetadataDatabase.mk (some
      [(1, ⟨some "Trade by industry", some "12-10", none, none, some "en"⟩)])).search
      ["("] = .error .operationalError := rfl

/-- C10 (amended): for every loaded store and every non-empty sequence of
keywords free of regex metacharacters, `search` never fails on entries
whose title or description is null — the `match` helper returns false for
`None` before the pattern is compiled — so an entry with a null
description is returned exactly when its title contains some keyword, and
symmetrically for a null title.  (For a keyword sequence whose joined
pattern is not a valid regular expression, `search` itself fails even on
stores holding null-field entries — see the counterexample.) -/
theorem C10_null_safe (db : MetadataDatabase) (entries : List (Nat × DbRow))
    (args : List String) (h : db.connection = some entries) (hne : args ≠ [])
    (hlit : ∀ k ∈ args, k.data.all (fun c => !reMeta c) = true) :
    ∃ res, db.search args = .ok res ∧
      (∀ r : DbRow, r.description = none →
        (r ∈ res ↔ r ∈ entries.map (·.2) ∧
          args.any (fun k => keywordHits k r.title) = true)) ∧
      (∀ r : DbRow, r.title = none →
        (r ∈ res ↔ r ∈ entries.map (·.2) ∧
          args.any (fun k => keywordHits k r.description) = true)) := by
  refine ⟨(entries.map (·.2)).filter (fun r =>
      args.any fun k => keywordHits k r.title || keywordHits k r.description),
    ?_, ?_, ?_⟩
  · rw [MetadataDatabase.search, h]
    exact scanRows_ok _ _ entries (fun r _ => rowMatches_keywords hne hlit r.2)
  · intro r hdesc
    rw [List.mem_filter]
    constructor
    · rintro ⟨hm, hp⟩
      refine ⟨hm, ?_⟩
      rw [any_or_distrib, hdesc,
        show (fun k : String => keywordHits k none) = (fun _ => false) from rfl,
        any_false, Bool.or_false] at hp
      exact hp
    · rintro ⟨hm, hp⟩
      refine ⟨hm, ?_⟩
      rw [any_or_distrib, hdesc,
        show (fun k : String => keywordHits k none) = (fun _ => false) from rfl,
        any_false, Bool.or_false]
      exact hp
  · intro r htitle
    rw [List.mem_filter]
    constructor
    · rintro ⟨hm, hp⟩
      refine ⟨hm, ?_⟩
      rw [any_or_distrib, htitle,
        show (fun k : String => keywordHits k none) = (fun _ => false) from rfl,
        any_false, Bool.false_or] at hp
      exact hp
    · rintro ⟨hm, hp⟩
      refine ⟨hm, ?_⟩
      rw [any_or_distrib, htitle,
        show (fun k : String => keywordHits k none) = (fun _ => false) from rfl,
        any_false, Bool.false_or]
      exact hp

theorem C10_witness :
    ∃ res, (MetadataDatabase.mk (some
        [(1, ⟨some "Housing starts", some "34-10", none, none, some "en"⟩)])).search
        ["Housing"] = .ok res ∧
      (⟨some "Housing starts", some "34-10", none, none, some "en"⟩ : DbRow) ∈ res := by
  obtain ⟨res, hok, hdesc, _⟩ := C10_null_safe
    (MetadataDatabase.mk (some
      [(1, ⟨some "Housing starts", some "34-10", none, none, some "en"⟩)]))
    [(1, ⟨some "Housing starts", some "34-10", none, none, some "en"⟩)]
    ["Housing"] rfl (by decide) (by decide)
  refine ⟨res, hok, ?_⟩
  rw [hdesc ⟨some "Housing starts", some "34-10", none, none, some "en"⟩ rfl]
  exact ⟨by decide, by decide⟩

/-- C3 counterexample: `search` does not return the matching entries for
every keyword sequence.  The keyword `"("` joins to the pattern `"(()"`,
which is not a valid regular expression: `re.search` raises `re.error`
inside the `MATCHES` user function and the whole query fails with
`sqlite3.OperationalError` — even though the stored title contains the
keyword as a literal substring, so the claimed result is the one-entry
sequence, not a failure. -/
theorem C3_counterexample :
    (MetadataDatabase.mk (some
      [(1, ⟨some "GDP (quarterly)", some "36-10", none, none, some "en"⟩)])).search
      ["("] = .error .operationalError ∧
    hasSub "(".data "GDP (quarterly)".data = true := ⟨rfl, by decide⟩

/-- C3 (amended): on every loaded catalog store and non-empty sequence of
keywords free of regex metacharacters, `search` builds the single
alternation pattern joining the keywords with the regex "or" operator and
returns, in ascending store-insertion order, exactly those entries whose
title or description contains a case-sensitive substring match of some
keyword — the regular-expression semantics of that alternation pattern.
(For a keyword sequence whose joined pattern is not a valid regular
expression, `search` fails and returns no sequence at all — see the
counterexample.) -/
theorem C3_search_alternation (db : MetadataDatabase)
    (entries : List (Nat × DbRow)) (kws : List String)
    (hload : db.connection = some entries) (hne : kws ≠ [])
    (hlit : ∀ k ∈ kws, k.data.all (fun c => !reMeta c) = true) :
    db.search kws = .ok ((entries.map (·.2)).filter fun r =>
      kws.any fun k => keywordHits k r.title || keywordHits k r.description) := by
  rw [MetadataDatabase.search, hload]
  exact scanRows_ok _ _ entries (fun r _ => rowMatches_keywords hne hlit r.2)

theorem C3_witness :
    (MetadataDatabase.mk (some
      [(1, ⟨some "Housing starts", some "34-10", none, none, some "en"⟩),
       (2, ⟨some "Population estimates", some "17-10", none, none, some "en"⟩)])).search
      ["housing", "starts"] =
      .ok [⟨some "Housing starts", some "34-10", none, none, some "en"⟩] := by
  rw [C3_search_alternation
    (MetadataDatabase.mk (some
      [(1, ⟨some "Housing starts", some "34-10", none, none, some "en"⟩),
       (2, ⟨some "Population estimates", some "17-10", none, none, some "en"⟩)]))
    [(1, ⟨some "Housing starts", some "34-10", none, none, some "en"⟩),
     (2, ⟨some "Population estimates", some "17-10", none, none, some "en"⟩)]
    ["housing", "starts"] rfl (by decide) (by decide)]
  rfl

/-- C1 (amended): for tables whose first column is REF_DATE and whose
first value has a length other than 4, 7 or 9, the pandas backend parses
every row's raw REF_DATE value directly as a calendar date (no
reformatting), and the resulting table's REF_DATE column is a date-typed
column holding exactly those parses.  (The polars backend leaves REF_DATE
a raw string in this case — see the counterexample — and the length
classification reads the first column of the frame.) -/
theorem C1_pandas_other_length_direct (name v0 : String) (vs : List String)
    (rest : RTable) (out : NTable)
    (h4 : v0.length ≠ 4) (h7 : v0.length ≠ 7) (h9 : v0.length ≠ 9)
    (hok : normalize_pandas (("REF_DATE", v0 :: vs) :: rest) name = .ok out) :
    ∃ ds, seqParse to_datetime (v0 :: vs) = some ds ∧
      getCol out "REF_DATE" = some (.dateCol ds) := by
  obtain ⟨tl, htl, hdisp⟩ := normalize_pandas_first v0 vs rest name
  rw [hdisp] at hok
  rw [if_neg (by simpa using h4), if_neg (by simpa using h7),
    if_neg (by simpa using h9)] at hok
  obtain ⟨col, ds, hg, hs, hout⟩ := applyRule_eq_ok hok
  rw [getCol_cons_self] at hg
  have hcol := Option.some_inj.mp hg
  rw [← hcol] at hs
  refine ⟨ds, hs, ?_⟩
  rw [hout]
  exact getCol_setCol_self _ _ _

theorem C1_witness :
    ∃ ds, seqParse to_datetime ["2021-01-02"] = some ds ∧
      getCol [("REF_DATE", NCol.dateCol [⟨2021, 1, 2⟩]),
              ("INDICATOR", NCol.strCol ["Census of Population"])] "REF_DATE" =
        some (NCol.dateCol ds) :=
  C1_pandas_other_length_direct "Census of Population" "2021-01-02" [] []
    [("REF_DATE", NCol.dateCol [⟨2021, 1, 2⟩]),
     ("INDICATOR", NCol.strCol ["Census of Population"])]
    (by decide) (by decide) (by decide) rfl

/-- C5 (amended): under the pandas backend, normalization fails with
`DataError` — and no other kind — whenever the table has zero data rows
(empty columns), whenever it lacks a REF_DATE column, and whenever some
value of the REF_DATE column cannot be parsed under the rule selected
from the first row's first-column value as the dispatch reads it
(`df.iloc[0][0]`, after the INDICATOR assignment), wherever the REF_DATE
column sits.  (The polars backend does not fail at all when the first
cell's length is not 4, 7 or 9 — see the counterexample.) -/
theorem C5_pandas_data_error :
    (∀ (t : RTable) (name : String), (∀ c ∈ t, c.2 = []) →
        normalize_pandas t name = .error .dataError) ∧
    (∀ (t : RTable) (name : String), (∀ c ∈ t, c.1 ≠ "REF_DATE") →
        normalize_pandas t name = .error .dataError) ∧
    (∀ (t : RTable) (name rd : String) (ws : List String) (v : String),
        firstCellStr (addIndicatorCoordinate (toN t) name) = some rd →
        getCol (toN t) "REF_DATE" = some (.strCol ws) →
        v ∈ ws → selRule rd v = none →
        normalize_pandas t name = .error .dataError) := by
  refine ⟨?_, ?_, ?_⟩
  · intro t name hz
    have hall : ∀ c ∈ toN t, colLen c.2 = 0 := by
      intro c hc
      obtain ⟨c', hc', heq⟩ := List.mem_map.mp hc
      rw [← heq]
      simp [colLen, hz c' hc']
    exact normalize_pandas_none t name (firstCellStr_zero (addIC_zero_rows hall name))
  · intro t name hmiss
    have hget : getCol (addIndicatorCoordinate (toN t) name) "REF_DATE" = none := by
      rw [getCol_addIC _ _ (by decide) (by decide), getCol]
      have hfind : (toN t).find? (fun c => c.1 == "REF_DATE") = none := by
        rw [List.find?_eq_none]
        intro x hx
        obtain ⟨c', hc', heq⟩ := List.mem_map.mp hx
        rw [← heq]
        simp [hmiss c' hc']
      rw [hfind]
      rfl
    rcases hfc : firstCellStr (addIndicatorCoordinate (toN t) name) with _ | rd
    · exact normalize_pandas_none t name hfc
    · rw [normalize_pandas_dispatch t name rd hfc]
      split_ifs
      · exact applyRule_no_col hget _
      · exact applyRule_no_col hget _
      · rw [applyRule_no_col hget]
      · exact applyRule_no_col hget _
  · intro t name rd ws v hfc hgw hv hrule
    have hg : getCol (addIndicatorCoordinate (toN t) name) "REF_DATE" =
        some (NCol.strCol ws) := by
      rw [getCol_addIC _ _ (by decide) (by decide)]
      exact hgw
    rw [normalize_pandas_dispatch t name rd hfc]
    by_cases h4 : rd.length = 4
    · rw [if_pos (by simp [h4])]
      refine applyRule_parse_fail hg (seqParse_eq_none hv ?_)
      rw [selRule, if_pos (by simp [h4])] at hrule
      exact hrule
    · by_cases h7 : rd.length = 7
      · rw [if_neg (by simpa using h4), if_pos (by simp [h7])]
        refine applyRule_parse_fail hg (seqParse_eq_none hv ?_)
        rw [selRule, if_neg (by simpa using h4), if_pos (by simp [h7])] at hrule
        exact hrule
      · by_cases h9 : rd.length = 9
        · rw [if_neg (by simpa using h4), if_neg (by simpa using h7),
            if_pos (by simp [h9])]
          rw [applyRule_parse_fail hg (seqParse_eq_none hv ?_)]
          rw [selRule, if_neg (by simpa using h4), if_neg (by simpa using h7),
            if_pos (by simp [h9])] at hrule
          exact hrule
        · rw [if_neg (by simpa using h4), if_neg (by simpa using h7),
            if_neg (by simpa using h9)]
          refine applyRule_parse_fail hg (seqParse_eq_none hv ?_)
          rw [selRule, if_neg (by simpa using h4), if_neg (by simpa using h7),
            if_neg (by simpa using h9)] at hrule
          exact hrule

theorem C5_witness :
    normalize_pandas [("REF_DATE", ([] : List String))] "Prices" = .error .dataError ∧
    normalize_pandas [("GEO", ["Canada"])] "Prices" = .error .dataError ∧
    normalize_pandas [("GEO", ["abcd"]), ("REF_DATE", ["99"])] "Prices" =
      .error .dataError :=
  ⟨C5_pandas_data_error.1 [("REF_DATE", [])] "Prices" (by decide),
   C5_pandas_data_error.2.1 [("GEO", ["Canada"])] "Prices" (by decide),
   C5_pandas_data_error.2.2 [("GEO", ["abcd"]), ("REF_DATE", ["99"])] "Prices"
     "abcd" ["99"] "99" rfl rfl (by decide) (by decide)⟩

/-- C8 (amended): every COORDINATE column in a pandas-normalized table is
string-typed (textual, never numeric), holding the `astype(str)` image of
the raw column after `read_csv` dtype inference.  Exact original
formatting is preserved whenever the raw column contains a value that is
not numeric-formatted (and no NA/bool/inf token, so pandas keeps the
column textual); an all-integer-formatted column is canonicalized
(`"01"` becomes `"1"` — see the counterexample); and the claim's own
`"1.1"` instance does normalize to the text `"1.1"`. -/
theorem C8_coordinate_textual :
    (∀ (t : RTable) (name : String) (out : NTable) (vs : List String),
        normalize_pandas t name = .ok out →
        getCol (toN t) "COORDINATE" = some (.strCol vs) →
        getCol out "COORDINATE" = some (.strCol (coordAstype vs))) ∧
    (∀ vs : List String, (∀ v ∈ vs, specialToken v = false) →
        (∃ v ∈ vs, numericLike v = false) → coordAstype vs = vs) ∧
    (∀ vs : List String, vs.all intLike = true → coordAstype vs = vs.map canonInt) ∧
    (normalize_pandas [("REF_DATE", ["2021"]), ("COORDINATE", ["1.1"])] "x" =
      .ok [("REF_DATE", .dateCol [⟨2021, 1, 1⟩]), ("COORDINATE", .strCol ["1.1"]),
           ("INDICATOR", .strCol ["x"])]) := by
  refine ⟨?_, ?_, ?_, rfl⟩
  · intro t name out vs hok hvs
    have h1 : getCol (setCol (toN t) "INDICATOR"
        (NCol.strCol (List.replicate (rowCount (toN t)) name))) "COORDINATE" =
        some (NCol.strCol vs) := by
      rw [getCol_setCol_ne (by decide)]
      exact hvs
    have h2 : getCol (addIndicatorCoordinate (toN t) name) "COORDINATE" =
        some (NCol.strCol (coordAstype vs)) := by
      simp only [addIndicatorCoordinate]
      rw [if_pos (hasCol_of_getCol h1)]
      have hgs : getColStrings (setCol (toN t) "INDICATOR"
          (NCol.strCol (List.replicate (rowCount (toN t)) name))) "COORDINATE" = vs := by
        rw [getColStrings, h1]
        rfl
      rw [hgs]
      exact getCol_setCol_self _ _ _
    rcases hfc : firstCellStr (addIndicatorCoordinate (toN t) name) with _ | rd
    · rw [normalize_pandas_none t name hfc] at hok
      exact absurd hok (by simp)
    · rw [normalize_pandas_dispatch t name rd hfc] at hok
      split_ifs at hok
      · obtain ⟨col, ds, hg, hs, hout⟩ := applyRule_eq_ok hok
        rw [hout, getCol_setCol_ne (by decide)]
        exact h2
      · obtain ⟨col, ds, hg, hs, hout⟩ := applyRule_eq_ok hok
        rw [hout, getCol_setCol_ne (by decide)]
        exact h2
      · rcases har : applyRule (addIndicatorCoordinate (toN t) name)
            (fun s => to_datetime (afterLastSlash s ++ "-3-31")) with e | t3
        · rw [har] at hok
          exact absurd hok (by simp)
        · rw [har] at hok
          have hok2 : Except.ok (ε := StatError) (setCol t3 "REF_PERIOD"
              (NCol.strCol (List.replicate (rowCount t3) "Fiscal year"))) =
              Except.ok out := hok
          simp only [Except.ok.injEq] at hok2
          obtain ⟨col, ds, hg, hs, ht3⟩ := applyRule_eq_ok har
          rw [← hok2, getCol_setCol_ne (by decide), ht3,
            getCol_setCol_ne (by decide)]
          exact h2
      · obtain ⟨col, ds, hg, hs, hout⟩ := applyRule_eq_ok hok
        rw [hout, getCol_setCol_ne (by decide)]
        exact h2
  · intro vs hna hnn
    rw [coordAstype, if_neg ?_]
    intro hall
    obtain ⟨v, hvm, hnum⟩ := hnn
    have h1 := List.all_eq_true.mp hall v hvm
    have h2 := numericLike_of_intLike h1
    rw [hnum] at h2
    exact Bool.false_ne_true h2
  · intro vs h
    rw [coordAstype, if_pos h]

theorem C8_witness :
    getCol [("REF_DATE", NCol.dateCol [⟨2021, 1, 1⟩]),
            ("COORDINATE", NCol.strCol ["1.1.5", "2.3"]),
            ("INDICATOR", NCol.strCol ["w"])] "COORDINATE" =
      some (NCol.strCol (coordAstype ["1.1.5", "2.3"])) ∧
    coordAstype ["1.1.5", "2.3"] = ["1.1.5", "2.3"] ∧
    coordAstype ["01", "-02"] = ["01", "-02"].map canonInt :=
  ⟨C8_coordinate_textual.1 [("REF_DATE", ["2021"]), ("COORDINATE", ["1.1.5", "2.3"])]
      "w"
      [("REF_DATE", NCol.dateCol [⟨2021, 1, 1⟩]),
       ("COORDINATE", NCol.strCol ["1.1.5", "2.3"]),
       ("INDICATOR", NCol.strCol ["w"])]
      ["1.1.5", "2.3"] rfl rfl,
   C8_coordinate_textual.2.1 ["1.1.5", "2.3"] (by decide)
     ⟨"1.1.5", by decide, by decide⟩,
   C8_coordinate_textual.2.2.1 ["01", "-02"] (by decide)⟩

/-- Core of the idempotence argument: the pandas pipeline maps a table of
the canonical post-normalization shape back to itself. -/
theorem pass2_ok (out : NTable) (name : String) (ds : List Date) (tl2 : NTable)
    (hshape : out = ("REF_DATE", NCol.dateCol ds) :: tl2)
    (hds_ne : ds ≠ [])
    (hprov : ∀ d ∈ ds, Date.ok d = true ∧ d.year < 10000)
    (hind : ∀ c ∈ out, c.1 = "INDICATOR" →
      c.2 = NCol.strCol (List.replicate ds.length name))
    (hhasind : hasCol out "INDICATOR" = true)
    (hcoord : hasCol out "COORDINATE" = true →
      ∃ ws, getCol out "COORDINATE" = some (NCol.strCol (coordAstype ws)) ∧
        ∀ c ∈ out, c.1 = "COORDINATE" → c.2 = NCol.strCol (coordAstype ws))
    (hrd : ∀ c ∈ out, c.1 = "REF_DATE" → c.2 = NCol.dateCol ds)
    (hstr : ∀ c ∈ out, c.1 ≠ "REF_DATE" → ∃ ws, c.2 = NCol.strCol ws) :
    normalize_pandas (reencode out) name = .ok out := by
  have hs_shape : strified out = ("REF_DATE", NCol.strCol (ds.map isoRender)) ::
      strified tl2 := by
    rw [hshape]
    rfl
  have hrc : rowCount (strified out) = ds.length := by
    rw [hs_shape]
    simp [rowCount, colLen]
  have hind_set : setCol (strified out) "INDICATOR"
      (NCol.strCol (List.replicate (rowCount (strified out)) name)) = strified out := by
    apply setCol_id
    · rw [hasCol_strified]
      exact hhasind
    · intro c hc h1
      rw [strified] at hc
      obtain ⟨c', hc', heq⟩ := List.mem_map.mp hc
      have h1' : c'.1 = "INDICATOR" := by rw [← heq] at h1; exact h1
      have hv := hind c' hc' h1'
      rw [← heq]
      show NCol.strCol (colToStrings c'.2) = _
      rw [hv, hrc]
      rfl
  have haddic : addIndicatorCoordinate (toN (reencode out)) name = strified out := by
    rw [toN_reencode]
    simp only [addIndicatorCoordinate]
    rw [hind_set]
    by_cases hc : hasCol (strified out) "COORDINATE" = true
    · rw [if_pos hc]
      have hcout : hasCol out "COORDINATE" = true := by
        rw [hasCol_strified] at hc
        exact hc
      obtain ⟨ws, hg, hall⟩ := hcoord hcout
      have hgr0 : getCol (strified out) "COORDINATE" =
          some (NCol.strCol (coordAstype ws)) := by
        rw [getCol_strified, hg]
        rfl
      have hgs : getColStrings (strified out) "COORDINATE" = coordAstype ws := by
        rw [getColStrings, hgr0]
        rfl
      rw [hgs, coordAstype_idem]
      apply setCol_id hc
      intro c hcm h1
      rw [strified] at hcm
      obtain ⟨c', hc', heq⟩ := List.mem_map.mp hcm
      have h1' : c'.1 = "COORDINATE" := by rw [← heq] at h1; exact h1
      have hv := hall c' hc' h1'
      rw [← heq]
      show NCol.strCol (colToStrings c'.2) = _
      rw [hv]
      rfl
    · rw [if_neg hc]
  obtain ⟨d0, ds', hds0⟩ := List.exists_cons_of_ne_nil hds_ne
  have hfc : firstCellStr (addIndicatorCoordinate (toN (reencode out)) name) =
      some (isoRender d0) := by
    rw [haddic, hs_shape, hds0]
    rfl
  have hprov0 := hprov d0 (by rw [hds0]; exact List.mem_cons_self _ _)
  have hlen10 : (isoRender d0).length = 10 := isoRender_length hprov0.1 hprov0.2
  rw [normalize_pandas_dispatch (reencode out) name (isoRender d0) hfc]
  rw [if_neg (by rw [hlen10]; decide), if_neg (by rw [hlen10]; decide),
    if_neg (by rw [hlen10]; decide)]
  rw [haddic]
  have hget : getCol (strified out) "REF_DATE" =
      some (NCol.strCol (ds.map isoRender)) := by
    rw [hs_shape]
    exact getCol_cons_self _ _ _
  have hseq : seqParse (fun s => to_datetime s)
      (colToStrings (NCol.strCol (ds.map isoRender))) = some ds := seqParse_renders hprov
  rw [applyRule_ok hget hseq]
  congr 1
  rw [setCol, if_pos (by rw [hs_shape, hasCol_cons]; simp)]
  rw [strified, List.map_map]
  refine (List.map_congr_left ?_).trans (List.map_id out)
  intro c hc
  simp only [Function.comp_apply]
  obtain ⟨cn, cv⟩ := c
  by_cases h1 : cn = "REF_DATE"
  · have hv : cv = NCol.dateCol ds := hrd (cn, cv) hc h1
    subst hv
    subst h1
    rfl
  · obtain ⟨ws, hws⟩ := hstr (cn, cv) hc h1
    have hv : cv = NCol.strCol ws := hws
    subst hv
    rw [if_neg (by simpa using h1)]
    rfl

/-- All pandas-normalization outputs on REF_DATE-first tables are of the
canonical shape `pass2_ok` consumes. -/
theorem C9_core (v0 : String) (vs' : List String) (rest : RTable) (name : String)
    (tl : NTable)
    (htl : addIndicatorCoordinate (toN (("REF_DATE", v0 :: vs') :: rest)) name =
      ("REF_DATE", NCol.strCol (v0 :: vs')) :: tl)
    (ds : List Date) (hlen : ds.length = (v0 :: vs').length)
    (hprov : ∀ d ∈ ds, Date.ok d = true ∧ d.year < 10000)
    (out : NTable)
    (hout : out = setCol (("REF_DATE", NCol.strCol (v0 :: vs')) :: tl) "REF_DATE"
        (NCol.dateCol ds) ∨
      out = setCol (setCol (("REF_DATE", NCol.strCol (v0 :: vs')) :: tl) "REF_DATE"
          (NCol.dateCol ds)) "REF_PERIOD"
        (NCol.strCol (List.replicate (rowCount
          (setCol (("REF_DATE", NCol.strCol (v0 :: vs')) :: tl) "REF_DATE"
            (NCol.dateCol ds))) "Fiscal year"))) :
    normalize_pandas (reencode out) name = .ok out := by
  have hrc0 : rowCount (toN (("REF_DATE", v0 :: vs') :: rest)) = ds.length := by
    rw [hlen]
    rfl
  have hds_ne : ds ≠ [] := by
    intro h0
    rw [h0] at hlen
    simp at hlen
  have hmem_t2 : ∀ c : String × NCol, c ∈ out → c.1 ≠ "REF_DATE" →
      c.1 ≠ "REF_PERIOD" → c ∈ ("REF_DATE", NCol.strCol (v0 :: vs')) :: tl := by
    intro c hc hrdc hrp
    rcases hout with h | h
    · rw [h] at hc
      exact setCol_mem_ne hc hrdc
    · rw [h] at hc
      exact setCol_mem_ne (setCol_mem_ne hc hrp) hrdc
  have hind : ∀ c ∈ out, c.1 = "INDICATOR" →
      c.2 = NCol.strCol (List.replicate ds.length name) := by
    intro c hc h1
    have hc2 := hmem_t2 c hc (by rw [h1]; decide) (by rw [h1]; decide)
    rw [← htl] at hc2
    have hv := addIC_ind_val _ name c hc2 h1
    rw [hv, hrc0]
  have hhasind : hasCol out "INDICATOR" = true := by
    have hbase : hasCol (("REF_DATE", NCol.strCol (v0 :: vs')) :: tl) "INDICATOR" =
        true := by
      rw [← htl]
      exact hasCol_addIC_ind _ name
    rcases hout with h | h
    · rw [h, hasCol_setCol, hbase]
      rfl
    · rw [h, hasCol_setCol, hasCol_setCol, hbase]
      rfl
  have hcoord : hasCol out "COORDINATE" = true →
      ∃ ws, getCol out "COORDINATE" = some (NCol.strCol (coordAstype ws)) ∧
        ∀ c ∈ out, c.1 = "COORDINATE" → c.2 = NCol.strCol (coordAstype ws) := by
    intro hhas
    have hhas2 : hasCol (("REF_DATE", NCol.strCol (v0 :: vs')) :: tl) "COORDINATE" =
        true := by
      rcases hout with h | h
      · rw [h, hasCol_setCol,
          show (("REF_DATE" : String) == "COORDINATE") = false by decide,
          Bool.or_false] at hhas
        exact hhas
      · rw [h, hasCol_setCol, hasCol_setCol,
          show (("REF_DATE" : String) == "COORDINATE") = false by decide,
          show (("REF_PERIOD" : String) == "COORDINATE") = false by decide,
          Bool.or_false, Bool.or_false] at hhas
        exact hhas
    have hh0 : hasCol (toN (("REF_DATE", v0 :: vs') :: rest)) "COORDINATE" = true := by
      rw [← hasCol_addIC_coord _ name, htl]
      exact hhas2
    obtain ⟨ws, hg, hall⟩ := addIC_coord_val (toN (("REF_DATE", v0 :: vs') :: rest))
      name hh0
    rw [htl] at hg hall
    refine ⟨ws, ?_, ?_⟩
    · rcases hout with h | h
      · rw [h, getCol_setCol_ne (by decide)]
        exact hg
      · rw [h, getCol_setCol_ne (by decide), getCol_setCol_ne (by decide)]
        exact hg
    · intro c hc h1
      exact hall c (hmem_t2 c hc (by rw [h1]; decide) (by rw [h1]; decide)) h1
  have hrd : ∀ c ∈ out, c.1 = "REF_DATE" → c.2 = NCol.dateCol ds := by
    intro c hc h1
    rcases hout with h | h
    · rw [h] at hc
      exact setCol_mem_eq hc h1
    · rw [h] at hc
      exact setCol_mem_eq (setCol_mem_ne hc (by rw [h1]; decide)) h1
  have hstr : ∀ c ∈ out, c.1 ≠ "REF_DATE" → ∃ ws, c.2 = NCol.strCol ws := by
    intro c hc h1
    by_cases h2 : c.1 = "REF_PERIOD"
    · rcases hout with h | h
      · rw [h] at hc
        have hc2 := setCol_mem_ne hc h1
        rw [← htl] at hc2
        exact addIC_toN_strCol _ name c hc2
      · rw [h] at hc
        rcases setCol_mem_val hc with hv | hv
        · exact ⟨_, hv⟩
        · have hc2 := setCol_mem_ne hv h1
          rw [← htl] at hc2
          exact addIC_toN_strCol _ name c hc2
    · have hc2 := hmem_t2 c hc h1 h2
      rw [← htl] at hc2
      exact addIC_toN_strCol _ name c hc2
  rcases hout with h | h
  · exact pass2_ok out name ds
      (tl.map (fun c => if c.1 == "REF_DATE" then ("REF_DATE", NCol.dateCol ds) else c))
      (by rw [h, setCol_cons_self]) hds_ne hprov hind hhasind hcoord hrd hstr
  · exact pass2_ok out name ds
      (setCol (tl.map (fun c => if c.1 == "REF_DATE" then
          ("REF_DATE", NCol.dateCol ds) else c)) "REF_PERIOD"
        (NCol.strCol (List.replicate (rowCount (("REF_DATE", NCol.dateCol ds) ::
          tl.map (fun c => if c.1 == "REF_DATE" then
            ("REF_DATE", NCol.dateCol ds) else c))) "Fiscal year")))
      (by rw [h, setCol_cons_self, setCol_cons_ne (by decide)]) hds_ne hprov hind
      hhasind hcoord hrd hstr

/-- C9 (amended): under the pandas backend, `normalize` is deterministic (a
function of its input), and idempotent on every raw table whose first column
is REF_DATE: if normalization succeeds with output `out`, then normalizing the
identically re-encoded output succeeds and returns exactly `out` again. -/
theorem C9_pandas_idempotent (vs : List String) (rest : RTable) (name : String)
    (out : NTable)
    (hok : normalize_pandas (("REF_DATE", vs) :: rest) name = .ok out) :
    normalize_pandas (("REF_DATE", vs) :: rest) name =
      normalize_pandas (("REF_DATE", vs) :: rest) name ∧
    normalize_pandas (reencode out) name = .ok out := by
  refine ⟨rfl, ?_⟩
  rcases vs with _ | ⟨v0, vs'⟩
  · exfalso
    obtain ⟨tl, htl⟩ := addIC_refdate_first [] rest name
    rw [normalize_pandas_none _ name (by rw [htl]; rfl)] at hok
    exact absurd hok (by simp)
  obtain ⟨tl, htl, hdisp⟩ := normalize_pandas_first v0 vs' rest name
  rw [hdisp] at hok
  split_ifs at hok with h4 h7 h9
  · obtain ⟨col, ds, hg, hs, hout⟩ := applyRule_eq_ok hok
    have hcol : NCol.strCol (v0 :: vs') = col :=
      Option.some.inj ((getCol_cons_self _ _ _).symm.trans hg)
    rw [← hcol] at hs
    have hlen : ds.length = (v0 :: vs').length := seqParse_length hs
    have hprov : ∀ d ∈ ds, Date.ok d = true ∧ d.year < 10000 := by
      intro d hd
      obtain ⟨v, hv, hfv⟩ := seqParse_mem hs hd
      exact to_datetime_ok hfv
    exact C9_core v0 vs' rest name tl htl ds hlen hprov out (Or.inl hout)
  · obtain ⟨col, ds, hg, hs, hout⟩ := applyRule_eq_ok hok
    have hcol : NCol.strCol (v0 :: vs') = col :=
      Option.some.inj ((getCol_cons_self _ _ _).symm.trans hg)
    rw [← hcol] at hs
    have hlen : ds.length = (v0 :: vs').length := seqParse_length hs
    have hprov : ∀ d ∈ ds, Date.ok d = true ∧ d.year < 10000 := by
      intro d hd
      obtain ⟨v, hv, hfv⟩ := seqParse_mem hs hd
      exact to_datetime_ok hfv
    exact C9_core v0 vs' rest name tl htl ds hlen hprov out (Or.inl hout)
  · rcases har : applyRule (("REF_DATE", NCol.strCol (v0 :: vs')) :: tl)
        (fun s => to_datetime (afterLastSlash s ++ "-3-31")) with e | t3
    · rw [har] at hok
      have hok2 : (Except.error e : Except StatError NTable) = .ok out := hok
      exact absurd hok2 (by simp)
    · rw [har] at hok
      have hok2 : (Except.ok (setCol t3 "REF_PERIOD" (NCol.strCol (List.replicate
          (rowCount t3) "Fiscal year"))) : Except StatError NTable) = .ok out := hok
      have hout2 := Except.ok.inj hok2
      obtain ⟨col, ds, hg, hs, ht3⟩ := applyRule_eq_ok har
      have hcol : NCol.strCol (v0 :: vs') = col :=
        Option.some.inj ((getCol_cons_self _ _ _).symm.trans hg)
      rw [← hcol] at hs
      have hlen : ds.length = (v0 :: vs').length := seqParse_length hs
      have hprov : ∀ d ∈ ds, Date.ok d = true ∧ d.year < 10000 := by
        intro d hd
        obtain ⟨v, hv, hfv⟩ := seqParse_mem hs hd
        exact to_datetime_ok hfv
      rw [ht3] at hout2
      exact C9_core v0 vs' rest name tl htl ds hlen hprov out (Or.inr hout2.symm)
  · obtain ⟨col, ds, hg, hs, hout⟩ := applyRule_eq_ok hok
    have hcol : NCol.strCol (v0 :: vs') = col :=
      Option.some.inj ((getCol_cons_self _ _ _).symm.trans hg)
    rw [← hcol] at hs
    have hlen : ds.length = (v0 :: vs').length := seqParse_length hs
    have hprov : ∀ d ∈ ds, Date.ok d = true ∧ d.year < 10000 := by
      intro d hd
      obtain ⟨v, hv, hfv⟩ := seqParse_mem hs hd
      exact to_datetime_ok hfv
    exact C9_core v0 vs' rest name tl htl ds hlen hprov out (Or.inl hout)

/-- Witness for C9: a concrete one-column REF_DATE table for which the first
normalization succeeds, and re-normalizing the re-encoded output returns the
same table. -/
theorem C9_witness :
    normalize_pandas [("REF_DATE", ["2021-05-06"])] "Pop" =
      .ok [("REF_DATE", NCol.dateCol [⟨2021, 5, 6⟩]),
        ("INDICATOR", NCol.strCol ["Pop"])] ∧
    normalize_pandas (reencode [("REF_DATE", NCol.dateCol [⟨2021, 5, 6⟩]),
        ("INDICATOR", NCol.strCol ["Pop"])]) "Pop" =
      .ok [("REF_DATE", NCol.dateCol [⟨2021, 5, 6⟩]),
        ("INDICATOR", NCol.strCol ["Pop"])] :=
  ⟨rfl, (C9_pandas_idempotent ["2021-05-06"] [] "Pop" _ rfl).2⟩

end Statcan
